import Mathlib

/-!
# Verification of the PersonalScraper storage and preprocessing layers

A shallow embedding of `src/storage.py` (the SQLite / JSON / CSV storage
backends) and `src/preprocessing.py` (the `DataCleaner` batch operations),
together with theorems settling the frozen specification claims.

Records (Python dictionaries) are modelled as association lists from field
names to a `Value` type covering the JSON-ish scalar types the repository
manipulates: `None`, strings, integers, booleans and `datetime` objects.
Python dictionary semantics (insertion order preserved, assignment to an
existing key updates it in place, assignment to a fresh key appends) are
modelled by `alistSet` / `alistGet?`.

`datetime` objects are encoded as a `Nat` packing
`year, month, day, hour, minute, second` in lexicographic positional order,
so that `Nat` ordering coincides with temporal ordering.  `isoformat`
renders the ISO-8601 string produced by `datetime.isoformat()`, `pyStr`
the `str(datetime)` rendering (space separator), and `fromisoformat?`
models the fragment of `datetime.fromisoformat` relevant here
(`YYYY-MM-DD`, optionally followed by a one-character separator and
`HH:MM` or `HH:MM:SS`), returning `none` where Python raises `ValueError`.
-/

set_option maxHeartbeats 1000000

namespace PersonalScraper

/-- A Python value as it occurs in scraped records: `None`, `str`, `int`,
`bool` or `datetime` (encoded as a packed `Nat`, see module docstring). -/
inductive Value where
  | vNone : Value
  | vStr : String → Value
  | vInt : Int → Value
  | vBool : Bool → Value
  | vTime : Nat → Value
  deriving DecidableEq, Repr

/-- A Python dict with string keys: an association list in insertion order. -/
abbrev Record := List (String × Value)

/-- Lookup in an association list (`d[k]` / `d.get(k)`): first match wins. -/
def alistGet? {κ α : Type} [DecidableEq κ] : List (κ × α) → κ → Option α
  | [], _ => none
  | kv :: rest, k => if kv.1 = k then some kv.2 else alistGet? rest k

/-- Python dict assignment `d[k] = v`: update the existing entry in place,
or append a fresh entry at the end. -/
def alistSet {κ α : Type} [DecidableEq κ] : List (κ × α) → κ → α → List (κ × α)
  | [], k, v => [(k, v)]
  | kv :: rest, k, v => if kv.1 = k then (k, v) :: rest else kv :: alistSet rest k v

/-- Field lookup on a record (`item.get(field)` / `item[field]`). -/
def recGet? (r : Record) (k : String) : Option Value :=
  alistGet? r k

/-- Field assignment on a record (`item[field] = v`). -/
def recSet (r : Record) (k : String) (v : Value) : Record :=
  alistSet r k v

/-- The keys of a record, in insertion order (`list(d.keys())`). -/
def recKeys (r : Record) : List String :=
  r.map Prod.fst

/-- Python truthiness of a `Value` (`bool(v)`). -/
def truthy : Value → Bool
  | .vNone => false
  | .vStr s => s ≠ ""
  | .vInt n => n ≠ 0
  | .vBool b => b
  | .vTime _ => true

/-- Boolean test `recGet? x key == some k`, used to select the records
carrying a given identifier value. -/
def keyIs (key : String) (k : Value) (x : Record) : Bool :=
  recGet? x key = some k

/-! ## Datetime encoding, `isoformat`, `str()` and `fromisoformat` -/

/-- Pack a calendar datetime into a single `Nat`; `Nat` order coincides with
temporal order because every component is placed in a fixed decimal slot. -/
def packTime (y mo d hh mi ss : Nat) : Nat :=
  ((((y * 100 + mo) * 100 + d) * 100 + hh) * 100 + mi) * 100 + ss

/-- Days in a month, with Gregorian leap years (as `calendar`/`datetime`). -/
def daysInMonth (y mo : Nat) : Nat :=
  if mo = 2 then
    if y % 4 = 0 ∧ (y % 100 ≠ 0 ∨ y % 400 = 0) then 29 else 28
  else if mo = 4 ∨ mo = 6 ∨ mo = 9 ∨ mo = 11 then 30
  else 31

/-- The numeric value of a decimal digit character, if it is one. -/
def digit? (c : Char) : Option Nat :=
  if '0' ≤ c ∧ c ≤ '9' then some (c.toNat - 48) else none

/-- Two-digit decimal field of a datetime string. -/
def twoDigits? (a b : Char) : Option Nat := do
  let x ← digit? a
  let y ← digit? b
  pure (x * 10 + y)

/-- Four-digit decimal field of a datetime string. -/
def fourDigits? (a b c d : Char) : Option Nat := do
  let x ← twoDigits? a b
  let y ← twoDigits? c d
  pure (x * 100 + y)

/-- Validate the calendar/clock ranges exactly as `datetime` does and pack. -/
def mkTime? (y mo d hh mi ss : Nat) : Option Nat :=
  if 1 ≤ y ∧ y ≤ 9999 ∧ 1 ≤ mo ∧ mo ≤ 12 ∧ 1 ≤ d ∧ d ≤ daysInMonth y mo
      ∧ hh ≤ 23 ∧ mi ≤ 59 ∧ ss ≤ 59 then
    some (packTime y mo d hh mi ss)
  else
    none

/-- Model of `datetime.fromisoformat` on the fragment the repository exercises:
`YYYY-MM-DD`, optionally a single separator character and `HH:MM` or
`HH:MM:SS`.  `none` models the `ValueError` raised on any other input. -/
def fromisoformat? (s : String) : Option Nat :=
  match s.toList with
  | [y1, y2, y3, y4, '-', m1, m2, '-', d1, d2] => do
      let y ← fourDigits? y1 y2 y3 y4
      let mo ← twoDigits? m1 m2
      let d ← twoDigits? d1 d2
      mkTime? y mo d 0 0 0
  | [y1, y2, y3, y4, '-', m1, m2, '-', d1, d2, _, h1, h2, ':', n1, n2] => do
      let y ← fourDigits? y1 y2 y3 y4
      let mo ← twoDigits? m1 m2
      let d ← twoDigits? d1 d2
      let hh ← twoDigits? h1 h2
      let mi ← twoDigits? n1 n2
      mkTime? y mo d hh mi 0
  | [y1, y2, y3, y4, '-', m1, m2, '-', d1, d2, _, h1, h2, ':', n1, n2, ':', s1, s2] => do
      let y ← fourDigits? y1 y2 y3 y4
      let mo ← twoDigits? m1 m2
      let d ← twoDigits? d1 d2
      let hh ← twoDigits? h1 h2
      let mi ← twoDigits? n1 n2
      let ss ← twoDigits? s1 s2
      mkTime? y mo d hh mi ss
  | _ => none

/-- Zero-padded two-digit decimal rendering. -/
def pad2 (n : Nat) : String :=
  if n < 10 then "0" ++ toString n else toString n

/-- Zero-padded four-digit decimal rendering. -/
def pad4 (n : Nat) : String :=
  if n < 10 then "000" ++ toString n
  else if n < 100 then "00" ++ toString n
  else if n < 1000 then "0" ++ toString n
  else toString n

/-- Render a packed datetime with the given date/time separator. -/
def renderTime (sep : String) (n : Nat) : String :=
  pad4 (n / 10000000000) ++ "-" ++ pad2 (n / 100000000 % 100) ++ "-" ++
    pad2 (n / 1000000 % 100) ++ sep ++ pad2 (n / 10000 % 100) ++ ":" ++
    pad2 (n / 100 % 100) ++ ":" ++ pad2 (n % 100)

/-- Rendering of `datetime.isoformat()`: `YYYY-MM-DDTHH:MM:SS` (microseconds are zero
throughout this model, so Python omits them). -/
def isoformat (n : Nat) : String :=
  renderTime "T" n

/-- Rendering of `str(datetime)`: the same rendering with a space separator. -/
def pyStr (n : Nat) : String :=
  renderTime " " n

/-! ## Relational backend (`SQLiteStorage`)

A database table is a list of rows; each row is a `Record` whose keys are
the table's columns.  `save_posts` / `save_comments` look the row up by
primary key, update it field by field if found, otherwise construct and
insert a fresh row; the whole call commits at the end, and any exception
rolls the session back and re-raises (`Except` + restoring the input rows).
-/

/-- The columns of the `posts` table, in declaration order. -/
def postColumns : List String :=
  ["id", "title", "author", "created_utc", "score", "upvote_ratio",
   "num_comments", "url", "selftext", "is_self", "permalink", "flair",
   "domain", "is_video", "is_original_content", "subreddit"]

/-- The columns of the `comments` table, in declaration order. -/
def commentColumns : List String :=
  ["id", "post_id", "parent_id", "author", "created_utc", "score", "body",
   "permalink", "depth", "is_submitter", "subreddit"]

/-- The `setattr` update loop on an existing row: every input entry whose
key is a mapped column overwrites that column; an entry whose key is no
column only sets a transient Python attribute and is not persisted. -/
def applyUpdates (cols : List String) (row rec : Record) : Record :=
  rec.foldl (fun acc kv => if kv.1 ∈ cols then recSet acc kv.1 kv.2 else acc) row

/-- A row (or result dict) laid out over a full column list; columns the
record does not supply are `NULL`. -/
def alignToCols (cols : List String) (r : Record) : Record :=
  cols.map (fun c => (c, (recGet? r c).getD Value.vNone))

/-- Model of `query.filter_by(id=pid).first()` followed by the update loop: only the
first row carrying the identifier is updated. -/
def updateFirstMatching (cols : List String) (pid : Value) (rec : Record) :
    List Record → List Record
  | [] => []
  | row :: rest =>
    if keyIs "id" pid row then applyUpdates cols row rec :: rest
    else row :: updateFirstMatching cols pid rec rest

/-- One iteration of the save loop: lookup by primary key, then update or
insert.  A record without an `id` raises `KeyError`; constructing a model
object with an unknown column raises `TypeError`. -/
def sqliteUpsertStep (cols : List String) (rows : List Record) (rec : Record) :
    Except String (List Record) :=
  match recGet? rec "id" with
  | none => Except.error "KeyError: id"
  | some pid =>
    if rows.any (keyIs "id" pid) then
      Except.ok (updateFirstMatching cols pid rec rows)
    else if rec.all (fun kv => decide (kv.1 ∈ cols)) then
      Except.ok (rows ++ [alignToCols cols rec])
    else
      Except.error "TypeError: invalid keyword argument"

/-- The `for post_data in posts` loop inside the `try` block. -/
def sqliteSaveLoop (cols : List String) : List Record → List Record →
    Except String (List Record)
  | rows, [] => Except.ok rows
  | rows, rec :: rest =>
    match sqliteUpsertStep cols rows rec with
    | Except.ok rows2 => sqliteSaveLoop cols rows2 rest
    | Except.error e => Except.error e

/-- Model of `SQLiteStorage.save_posts`: run the upsert loop and commit; on any
exception roll back (the stored rows revert to the input) and re-raise
(the second component carries the error). -/
def sqliteSavePosts (rows posts : List Record) : List Record × Option String :=
  match sqliteSaveLoop postColumns rows posts with
  | Except.ok rows2 => (rows2, none)
  | Except.error e => (rows, some e)

/-- Model of `SQLiteStorage.save_comments`: identical upsert, over the comment table. -/
def sqliteSaveComments (rows comments : List Record) : List Record × Option String :=
  match sqliteSaveLoop commentColumns rows comments with
  | Except.ok rows2 => (rows2, none)
  | Except.error e => (rows, some e)

/-- Model of `SQLiteStorage.get_posts` / `get_comments`: a falsy (absent or empty)
filter map returns every row; otherwise each filter entry whose key is a
mapped column adds an SQL equality constraint and unknown keys are
ignored (`hasattr` check).  Each returned dict enumerates all columns. -/
def sqliteGetRows (cols : List String) (rows : List Record)
    (filters : List (String × Value)) : List Record :=
  (if filters = [] then rows
   else rows.filter (fun row => filters.all (fun kv =>
     if kv.1 ∈ cols then decide ((recGet? row kv.1).getD Value.vNone = kv.2)
     else true))).map (alignToCols cols)

/-- Model of `SQLiteStorage.get_posts`. -/
def sqliteGetPosts (rows : List Record) (filters : List (String × Value)) :
    List Record :=
  sqliteGetRows postColumns rows filters

/-! ## Document-file backend (`JSONStorage`)

The stored state is the JSON array persisted in `posts.json`.  `save_posts`
loads it, builds a Python dict keyed by `post['id']`, overlays the inputs,
and dumps the dict's values back with `datetime` values serialized to their
ISO-8601 strings. -/

/-- A value transformation applied to every field of a record. -/
def mapValues (f : Value → Value) (r : Record) : Record :=
  r.map (fun kv => (kv.1, f kv.2))

/-- The `json.dump` default serializer: `datetime` becomes its ISO string. -/
def serializeValue : Value → Value
  | .vTime n => .vStr (isoformat n)
  | v => v

/-- Serialization applied to every field of a record. -/
def serializeRecord (r : Record) : Record :=
  mapValues serializeValue r

/-- The dict comprehension keyed by identifier, extended onto an existing dict;
a record without an `id` raises `KeyError`. -/
def buildIdDict : List Record → List (Value × Record) →
    Except String (List (Value × Record))
  | [], d => Except.ok d
  | r :: rest, d =>
    match recGet? r "id" with
    | none => Except.error "KeyError: id"
    | some k => buildIdDict rest (alistSet d k r)

/-- Model of `JSONStorage.save_posts`: returns the new file contents (the dict's
values in insertion order, serialized), or the re-raised error. -/
def jsonSavePosts (stored posts : List Record) : Except String (List Record) := do
  let d0 ← buildIdDict stored []
  let d1 ← buildIdDict posts d0
  pure ((d1.map Prod.snd).map serializeRecord)

/-- The file-backend match rule: `all(post.get(key) == value ...)`; a
missing field reads as `None` and is compared with Python `==`. -/
def filterMatches (filters : List (String × Value)) (r : Record) : Bool :=
  filters.all (fun kv => decide ((recGet? r kv.1).getD Value.vNone = kv.2))

/-- Model of `JSONStorage.get_posts` / `get_comments`: a falsy filter map returns
everything, otherwise the records satisfying every filter entry. -/
def jsonGetPosts (stored : List Record) (filters : List (String × Value)) :
    List Record :=
  if filters = [] then stored else stored.filter (filterMatches filters)

/-! ## Tabular-file backend (`CSVStorage`)

The stored state is the table in `posts.csv`, `none` when the file does not
exist yet.  `save_posts` builds a DataFrame from the inputs, concatenates it
under the existing one (aligning both to the union of their columns, absent
cells becoming `NaN`, modelled by `vNone`), drops duplicate identifiers
keeping the last occurrence, and rewrites the file, stringifying `datetime`
cells via `str()`. -/

/-- Accumulate one record's keys onto a running column list, appending the
keys not seen yet. -/
def colsStep (acc : List String) (r : Record) : List String :=
  r.foldl (fun acc2 kv => if kv.1 ∈ acc2 then acc2 else acc2 ++ [kv.1]) acc

/-- DataFrame columns: the union of the records' keys in first-appearance
order (`pd.DataFrame(list_of_dicts).columns`, and the column order of
`pd.concat`). -/
def colsOf (recs : List Record) : List String :=
  recs.foldl colsStep []

/-- The `to_csv` cell rendering: a `datetime` cell becomes `str(datetime)`;
other cells round-trip through the file unchanged in this model. -/
def csvSerializeValue : Value → Value
  | .vTime n => .vStr (pyStr n)
  | v => v

/-- The `to_csv` rendering applied to a whole row. -/
def csvSerializeRecord (r : Record) : Record :=
  mapValues csvSerializeValue r

/-- Model of `drop_duplicates(subset=['id'], keep='last')`: a row is dropped when a
later row carries the same identifier cell (`NaN` cells compare equal here,
as in pandas duplicate detection). -/
def dropDupLast (key : String) : List Record → List Record
  | [] => []
  | r :: rest =>
    if rest.any (fun r2 => decide (recGet? r2 key = recGet? r key)) then
      dropDupLast key rest
    else
      r :: dropDupLast key rest

/-- Model of `CSVStorage.save_posts`: returns the new file contents or the
re-raised error (`drop_duplicates` raises `KeyError` when no `id` column
exists on the combined frame). -/
def csvSavePosts (file : Option (List Record)) (posts : List Record) :
    Except String (Option (List Record)) :=
  match file with
  | none =>
    Except.ok (some ((posts.map (alignToCols (colsOf posts))).map csvSerializeRecord))
  | some existing =>
    let cols := colsOf (existing ++ posts)
    if "id" ∈ cols then
      Except.ok (some ((dropDupLast "id"
        ((existing ++ posts).map (alignToCols cols))).map csvSerializeRecord))
    else
      Except.error "KeyError: id"

/-- Pandas elementwise equality against a scalar: a `NaN` cell never
matches, any other cell matches exactly. -/
def csvEq (cell target : Value) : Bool :=
  if cell = Value.vNone then false else decide (cell = target)

/-- Model of `CSVStorage.get_posts` / `get_comments`: missing file yields `[]`; a
falsy filter map selects every row; each filter entry whose key is a column
restricts the frame and entries naming no column are skipped; the result
rows enumerate every column (`to_dict('records')`). -/
def csvGetPosts (file : Option (List Record)) (filters : List (String × Value)) :
    List Record :=
  match file with
  | none => []
  | some rows =>
    let cols := colsOf rows
    (if filters = [] then rows
     else filters.foldl (fun df kv =>
       if kv.1 ∈ cols then
         df.filter (fun r => csvEq ((recGet? r kv.1).getD Value.vNone) kv.2)
       else df) rows).map (alignToCols cols)

/-! ## Cleaning pipeline (`DataCleaner`) -/

/-- One iteration of the `remove_duplicates` loop:
`if key_field in item: unique_data[item[key_field]] = item`. -/
def dedupStep (key_field : String) (d : List (Value × Record)) (item : Record) :
    List (Value × Record) :=
  match recGet? item key_field with
  | some k => alistSet d k item
  | none => d

/-- Model of `DataCleaner.remove_duplicates`: build a dict keyed by the record's
`key_field` value (records lacking the field are skipped) and return the
dict's values; Python dict semantics make this last-write-wins with the
surviving record parked at the key's first-appearance position. -/
def remove_duplicates (data : List Record) (key_field : String) : List Record :=
  (data.foldl (dedupStep key_field) []).map Prod.snd

/-- The inclusive window test of `filter_by_date` (`continue` on
`date < start` or `date > end`). -/
def dateKeep (sd ed : Option Nat) (d : Nat) : Bool :=
  (match sd with | some s0 => !decide (d < s0) | none => true) &&
  (match ed with | some e0 => !decide (e0 < d) | none => true)

/-- The `for item in data` loop of `filter_by_date`: records lacking the
date field are skipped; string dates are parsed, `continue` on
`ValueError`; comparing a non-date, non-string value against a bound
raises `TypeError`, which propagates. -/
def filterByDateGo (f : String) (sd ed : Option Nat) : List Record →
    Except String (List Record)
  | [] => Except.ok []
  | item :: rest =>
    match recGet? item f with
    | none => filterByDateGo f sd ed rest
    | some (.vTime d) => do
        let l ← filterByDateGo f sd ed rest
        pure (if dateKeep sd ed d then item :: l else l)
    | some (.vStr s) =>
        match fromisoformat? s with
        | none => filterByDateGo f sd ed rest
        | some d => do
            let l ← filterByDateGo f sd ed rest
            pure (if dateKeep sd ed d then item :: l else l)
    | some _ => Except.error "TypeError: unorderable"

/-- Model of `DataCleaner.filter_by_date`: with neither bound supplied the batch is
returned untouched; otherwise the loop above runs. -/
def filter_by_date (data : List Record) (f : String) (sd ed : Option Nat) :
    Except String (List Record) :=
  if sd = none ∧ ed = none then Except.ok data else filterByDateGo f sd ed data

/-- The predicate "this record's timestamp field denotes the instant `t`"
(native `datetime` equal to `t`, or a string parsing to `t`). -/
def timestampEquals (f : String) (t : Nat) (item : Record) : Bool :=
  match recGet? item f with
  | some (.vTime d) => decide (d = t)
  | some (.vStr s) => decide (fromisoformat? s = some t)
  | _ => false

/-- One text field of one record:
`if field in item and item[field]: cleaned_item[field] = preprocess(item[field])`.
The presence/truthiness tests read the original `item`. -/
def cleanStep (pp : Value → Value) (item cleaned : Record) (fld : String) : Record :=
  match recGet? item fld with
  | some v => if truthy v then recSet cleaned fld (pp v) else cleaned
  | none => cleaned

/-- Model of `DataCleaner.clean_text_fields`, with the text-transform collaborator
abstracted as `pp`: each record is copied, and each listed field that is
present and truthy on the original record is replaced by its transform. -/
def clean_text_fields (pp : Value → Value) (data : List Record)
    (text_fields : List String) : List Record :=
  data.map (fun item => text_fields.foldl (cleanStep pp item) item)

/-- The record a `filter_by_date` call with at least one bound keeps: its
date field is present and denotes an instant inside the inclusive window
(native `datetime`, or a string that parses); everything else — missing
field, unparsable string — is skipped. -/
def dateWindowKeep (f : String) (sd ed : Option Nat) (item : Record) : Bool :=
  match recGet? item f with
  | some (.vTime d) => dateKeep sd ed d
  | some (.vStr s) =>
    match fromisoformat? s with
    | some d => dateKeep sd ed d
    | none => false
  | _ => false

/-- Invariant of the identifier-keyed dicts built by `remove_duplicates`
and the JSON upsert: keys are distinct and each entry's record carries its
entry key in the `key` field. -/
def dictInv (key : String) (d : List (Value × Record)) : Prop :=
  (d.map Prod.fst).Nodup ∧ ∀ kv ∈ d, recGet? kv.2 key = some kv.1

/-- The date field of a record is absent, a `datetime`, or a string — the
shapes `filter_by_date` handles without raising `TypeError`. -/
def dateFieldWellTyped (f : String) (item : Record) : Bool :=
  match recGet? item f with
  | none => true
  | some (.vTime _) => true
  | some (.vStr _) => true
  | some _ => false

/-! ## Concrete sample data -/

/-- A sample creation instant, `2023-01-15 12:30:00`. -/
def tSample : Nat := packTime 2023 1 15 12 30 0

/-- A complete post record carrying every column of the `posts` table. -/
def samplePost : Record :=
  [("id", .vStr "p1"), ("title", .vStr "Hello"), ("author", .vStr "alice"),
   ("created_utc", .vTime tSample), ("score", .vInt 5), ("upvote_ratio", .vNone),
   ("num_comments", .vInt 2), ("url", .vStr "http://example.com"),
   ("selftext", .vStr "some text"), ("is_self", .vBool true),
   ("permalink", .vStr "/r/test/p1"), ("flair", .vNone),
   ("domain", .vStr "example.com"), ("is_video", .vBool false),
   ("is_original_content", .vBool false), ("subreddit", .vStr "test")]

/-- The same post fetched again with a changed score. -/
def samplePost2 : Record := recSet samplePost "score" (.vInt 9)

/-- A partial update for the same identifier that does not supply `score`. -/
def partialPost : Record := [("id", .vStr "p1"), ("title", .vStr "New title")]

/-- A record with no fields at all (in particular, no identifier). -/
def emptyRec : Record := []

/-- A small batch with a duplicated identifier for the deduplication demos. -/
def dedupBatch : List Record :=
  [[("id", .vStr "a"), ("score", .vInt 1)], [("id", .vStr "b")],
   [("id", .vStr "a"), ("score", .vInt 7)]]

/-- A batch exercising every date shape `filter_by_date` handles: a native
`datetime` equal to the window instant, a string parsing to it, an
unparsable string, a different instant and a record with no date field. -/
def dateBatch : List Record :=
  [[("created_utc", .vTime tSample)],
   [("created_utc", .vStr "2023-01-15T12:30:00")],
   [("created_utc", .vStr "not-a-date")],
   [("created_utc", .vTime (packTime 2023 1 16 0 0 0))],
   [("note", .vInt 3)]]

/-! ## Association-list lemmas -/

section AlistLemmas

variable {κ α : Type} [DecidableEq κ]

theorem alistGet?_set_self (d : List (κ × α)) (k : κ) (v : α) :
    alistGet? (alistSet d k v) k = some v := by
  induction d with
  | nil => simp [alistSet, alistGet?]
  | cons kv rest ih =>
    by_cases h : kv.1 = k
    · simp [alistSet, h, alistGet?]
    · simp [alistSet, h, alistGet?, ih]

theorem alistGet?_set_ne (d : List (κ × α)) (k : κ) (v : α) (k' : κ) (h : k' ≠ k) :
    alistGet? (alistSet d k v) k' = alistGet? d k' := by
  have h' : k ≠ k' := Ne.symm h
  induction d with
  | nil => simp [alistSet, alistGet?, h']
  | cons kv rest ih =>
    by_cases hk : kv.1 = k
    · have hne : kv.1 ≠ k' := by rw [hk]; exact h'
      simp [alistSet, hk, alistGet?, h', hne]
    · simp [alistSet, hk, alistGet?, ih]

theorem mem_alistSet (d : List (κ × α)) (k : κ) (v : α) (kv' : κ × α)
    (h : kv' ∈ alistSet d k v) : kv' = (k, v) ∨ kv' ∈ d := by
  induction d with
  | nil => simpa [alistSet] using h
  | cons kv rest ih =>
    by_cases hk : kv.1 = k
    · simp only [alistSet, hk, if_true, List.mem_cons] at h
      rcases h with h | h
      · exact Or.inl h
      · exact Or.inr (List.mem_cons_of_mem _ h)
    · simp only [alistSet, hk, if_false, List.mem_cons] at h
      rcases h with h | h
      · exact Or.inr (h ▸ List.mem_cons_self _ _)
      · rcases ih h with h' | h'
        · exact Or.inl h'
        · exact Or.inr (List.mem_cons_of_mem _ h')

theorem keys_alistSet (d : List (κ × α)) (k : κ) (v : α) :
    (alistSet d k v).map Prod.fst =
      if k ∈ d.map Prod.fst then d.map Prod.fst else d.map Prod.fst ++ [k] := by
  induction d with
  | nil => simp [alistSet]
  | cons kv rest ih =>
    by_cases hk : kv.1 = k
    · simp [alistSet, hk]
    · by_cases hm : k ∈ rest.map Prod.fst
      · simp [alistSet, hk, ih, hm, Ne.symm hk]
      · simp [alistSet, hk, ih, hm, Ne.symm hk]

theorem nodup_keys_alistSet (d : List (κ × α)) (k : κ) (v : α)
    (h : (d.map Prod.fst).Nodup) : ((alistSet d k v).map Prod.fst).Nodup := by
  rw [keys_alistSet]
  by_cases hm : k ∈ d.map Prod.fst
  · simpa [hm] using h
  · simp only [hm, if_false]
    exact List.Nodup.append h (List.nodup_singleton k) (by simpa using hm)

theorem alistGet?_eq_none (d : List (κ × α)) (k : κ) :
    alistGet? d k = none ↔ k ∉ d.map Prod.fst := by
  induction d with
  | nil => simp [alistGet?]
  | cons kv rest ih =>
    by_cases hk : kv.1 = k
    · simp [alistGet?, hk]
    · simp [alistGet?, hk, ih, Ne.symm hk]

theorem alistGet?_mem (d : List (κ × α)) (k : κ) (v : α)
    (h : alistGet? d k = some v) : (k, v) ∈ d := by
  induction d with
  | nil => simp [alistGet?] at h
  | cons kv rest ih =>
    by_cases hk : kv.1 = k
    · simp only [alistGet?, hk, if_true, Option.some.injEq] at h
      subst h
      exact hk ▸ List.mem_cons_self _ _
    · simp only [alistGet?, hk, if_false] at h
      exact List.mem_cons_of_mem _ (ih h)

theorem alistGet?_of_mem_keys (d : List (κ × α)) (k : κ)
    (h : k ∈ d.map Prod.fst) : ∃ v, alistGet? d k = some v := by
  cases hv : alistGet? d k with
  | none => exact absurd ((alistGet?_eq_none d k).mp hv) (by simpa using h)
  | some v => exact ⟨v, rfl⟩

end AlistLemmas

/-! ## Record, alignment and serialization lemmas -/

theorem recGet?_mapValues (f : Value → Value) (r : Record) (k : String) :
    recGet? (mapValues f r) k = (recGet? r k).map f := by
  induction r with
  | nil => simp [mapValues, recGet?, alistGet?]
  | cons kv rest ih =>
    by_cases hk : kv.1 = k
    · simp [mapValues, recGet?, alistGet?, hk]
    · simpa [mapValues, recGet?, alistGet?, hk] using ih

theorem keys_mapValues (f : Value → Value) (r : Record) :
    recKeys (mapValues f r) = recKeys r := by
  simp [mapValues, recKeys]

theorem recGet?_alignToCols_mem (cols : List String) (r : Record) (k : String)
    (h : k ∈ cols) :
    recGet? (alignToCols cols r) k = some ((recGet? r k).getD Value.vNone) := by
  induction cols with
  | nil => simp at h
  | cons c rest ih =>
    by_cases hc : c = k
    · simp [alignToCols, recGet?, alistGet?, hc]
    · rcases List.mem_cons.mp h with h | h
      · exact absurd h.symm hc
      · simpa [alignToCols, recGet?, alistGet?, hc] using ih h

theorem keys_alignToCols (cols : List String) (r : Record) :
    recKeys (alignToCols cols r) = cols := by
  unfold alignToCols recKeys
  rw [List.map_map]
  exact (List.map_congr_left (fun c _ => rfl)).trans (List.map_id' cols)

theorem alignToCols_congr (cols : List String) (a b : Record)
    (h : ∀ c ∈ cols, recGet? a c = recGet? b c) :
    alignToCols cols a = alignToCols cols b := by
  unfold alignToCols
  exact List.map_congr_left (fun c hc => by rw [h c hc])

theorem alignToCols_eq_self (cols : List String) (r : Record)
    (hkeys : recKeys r = cols) (hnd : cols.Nodup) : alignToCols cols r = r := by
  subst hkeys
  revert hnd
  induction r with
  | nil => intro _; simp [alignToCols, recKeys]
  | cons kv rest ih =>
    intro hnd
    simp only [recKeys, List.map_cons, List.nodup_cons] at hnd
    unfold alignToCols
    simp only [recKeys, List.map_cons]
    have hhead : (kv.1, (recGet? (kv :: rest) kv.1).getD Value.vNone) = kv := by
      simp [recGet?, alistGet?]
    have htail : List.map (fun c => (c, (recGet? (kv :: rest) c).getD Value.vNone))
        (List.map Prod.fst rest) = rest := by
      have hcong : ∀ c ∈ rest.map Prod.fst,
          (c, (recGet? (kv :: rest) c).getD Value.vNone) =
          (c, (recGet? rest c).getD Value.vNone) := by
        intro c hc
        have hne : kv.1 ≠ c := fun he => hnd.1 (he ▸ hc)
        simp [recGet?, alistGet?, hne]
      rw [List.map_congr_left hcong]
      exact ih hnd.2
    rw [hhead, htail]

/-! ## Dictionary-fold lemmas (`remove_duplicates` and the JSON upsert) -/

theorem dictInv_dedupStep (key : String) (d : List (Value × Record)) (item : Record)
    (h : dictInv key d) : dictInv key (dedupStep key d item) := by
  unfold dedupStep
  cases hit : recGet? item key with
  | none => exact h
  | some k =>
    refine ⟨nodup_keys_alistSet d k item h.1, ?_⟩
    intro kv hkv
    rcases mem_alistSet d k item kv hkv with he | hm
    · subst he; exact hit
    · exact h.2 kv hm

theorem dictInv_foldl (key : String) (data : List Record) (d : List (Value × Record))
    (h : dictInv key d) : dictInv key (data.foldl (dedupStep key) d) := by
  induction data generalizing d with
  | nil => exact h
  | cons item rest ih => exact ih _ (dictInv_dedupStep key d item h)

theorem snd_mem_foldl_dedupStep (key : String) (data : List Record)
    (d : List (Value × Record)) (kv : Value × Record)
    (h : kv ∈ data.foldl (dedupStep key) d) :
    kv.2 ∈ d.map Prod.snd ∨ kv.2 ∈ data := by
  induction data generalizing d with
  | nil => exact Or.inl (List.mem_map_of_mem _ h)
  | cons item rest ih =>
    rcases ih _ h with hm | hm
    · obtain ⟨kv', hkv', he⟩ := List.mem_map.mp hm
      unfold dedupStep at hkv'
      cases hit : recGet? item key with
      | none =>
        rw [hit] at hkv'
        exact Or.inl (he ▸ List.mem_map_of_mem _ hkv')
      | some k =>
        rw [hit] at hkv'
        rcases mem_alistSet d k item kv' hkv' with he' | hm'
        · refine Or.inr ?_
          rw [← he, he']
          exact List.mem_cons_self _ _
        · exact Or.inl (he ▸ List.mem_map_of_mem _ hm')
    · exact Or.inr (List.mem_cons_of_mem _ hm)

theorem alistGet?_dedupStep (key : String) (k : Value)
    (d : List (Value × Record)) (item : Record) :
    alistGet? (dedupStep key d item) k =
      (List.find? (keyIs key k) [item]).or (alistGet? d k) := by
  unfold dedupStep
  cases hit : recGet? item key with
  | none =>
    have hf : keyIs key k item = false := by simp [keyIs, hit]
    simp [List.find?, hf]
  | some k0 =>
    by_cases hk : k0 = k
    · subst hk
      have hf : keyIs key k0 item = true := by simp [keyIs, hit]
      simp [List.find?, hf, alistGet?_set_self]
    · have hf : keyIs key k item = false := by simp [keyIs, hit, hk]
      simp [List.find?, hf, alistGet?_set_ne d k0 item k (fun he => hk he.symm)]

theorem alistGet?_foldl_dedupStep (key : String) (k : Value) (data : List Record)
    (d : List (Value × Record)) :
    alistGet? (data.foldl (dedupStep key) d) k =
      (data.reverse.find? (keyIs key k)).or (alistGet? d k) := by
  induction data generalizing d with
  | nil => simp
  | cons item rest ih =>
    rw [List.foldl_cons, ih, List.reverse_cons, List.find?_append, Option.or_assoc,
      alistGet?_dedupStep]

theorem values_filter_of_dictInv (key : String) (k : Value) :
    ∀ d : List (Value × Record), dictInv key d →
      (d.map Prod.snd).filter (keyIs key k) = (alistGet? d k).toList := by
  intro d
  induction d with
  | nil => intro _; simp [alistGet?]
  | cons kv rest ih =>
    intro h
    have hinv : dictInv key rest :=
      ⟨(List.nodup_cons.mp h.1).2, fun x hx => h.2 x (List.mem_cons_of_mem _ hx)⟩
    have hkv : recGet? kv.2 key = some kv.1 := h.2 kv (List.mem_cons_self _ _)
    by_cases hk : kv.1 = k
    · subst hk
      have hnotin : kv.1 ∉ rest.map Prod.fst := (List.nodup_cons.mp h.1).1
      have hrest : alistGet? rest kv.1 = none := (alistGet?_eq_none rest kv.1).mpr hnotin
      have hzero : (rest.map Prod.snd).filter (keyIs key kv.1) = [] := by
        rw [ih hinv, hrest]; rfl
      have ht : keyIs key kv.1 kv.2 = true := by simp [keyIs, hkv]
      simp [alistGet?, ht, hzero]
    · have hf : keyIs key k kv.2 = false := by simp [keyIs, hkv, hk]
      simp [alistGet?, hk, hf, ih hinv]

/-- The empty dict satisfies the invariant. -/
theorem dictInv_nil (key : String) : dictInv key [] :=
  ⟨List.nodup_nil, by intro kv h; simp at h⟩

theorem remove_duplicates_filter (data : List Record) (key : String) (k : Value)
    (r : Record) (hlast : data.reverse.find? (keyIs key k) = some r) :
    (remove_duplicates data key).filter (keyIs key k) = [r] := by
  unfold remove_duplicates
  rw [values_filter_of_dictInv key k _ (dictInv_foldl key data [] (dictInv_nil key)),
    alistGet?_foldl_dedupStep, hlast]
  rfl

theorem mem_remove_duplicates_isSome (data : List Record) (key : String) (r : Record)
    (h : r ∈ remove_duplicates data key) : (recGet? r key).isSome := by
  unfold remove_duplicates at h
  obtain ⟨kv, hkv, he⟩ := List.mem_map.mp h
  have hid := (dictInv_foldl key data [] (dictInv_nil key)).2 kv hkv
  rw [he] at hid
  simp [hid]

/-! ## Date-filter lemmas -/

theorem dateKeep_both_eq (t d : Nat) :
    dateKeep (some t) (some t) d = decide (d = t) := by
  unfold dateKeep
  rcases Nat.lt_trichotomy d t with h | h | h
  · simp [h, Nat.ne_of_lt h]
  · subst h; simp
  · simp [h, Nat.lt_asymm h, (Nat.ne_of_lt h).symm]

theorem dateWindowKeep_both (f : String) (t : Nat) (item : Record) :
    dateWindowKeep f (some t) (some t) item = timestampEquals f t item := by
  unfold dateWindowKeep timestampEquals
  cases recGet? item f with
  | none => rfl
  | some v =>
    cases v with
    | vTime d => simp [dateKeep_both_eq]
    | vStr s =>
      cases hp : fromisoformat? s with
      | none => simp [hp]
      | some d => simp [hp, dateKeep_both_eq]
    | vNone => rfl
    | vInt n => rfl
    | vBool b => rfl

theorem filterByDateGo_ok (f : String) (sd ed : Option Nat) :
    ∀ data : List Record, (∀ item ∈ data, dateFieldWellTyped f item = true) →
      filterByDateGo f sd ed data =
        Except.ok (data.filter (dateWindowKeep f sd ed)) := by
  intro data
  induction data with
  | nil => intro _; rfl
  | cons item rest ih =>
    intro hty
    have hrest := ih (fun x hx => hty x (List.mem_cons_of_mem _ hx))
    have hitem := hty item (List.mem_cons_self _ _)
    cases hit : recGet? item f with
    | none =>
      have hk : dateWindowKeep f sd ed item = false := by
        simp [dateWindowKeep, hit]
      simp [filterByDateGo, hit, hrest, List.filter_cons, hk]
    | some v =>
      cases v with
      | vTime d =>
        have hk : dateWindowKeep f sd ed item = dateKeep sd ed d := by
          simp [dateWindowKeep, hit]
        simp [filterByDateGo, hit, hrest, List.filter_cons, hk]
      | vStr s =>
        cases hp : fromisoformat? s with
        | none =>
          have hk : dateWindowKeep f sd ed item = false := by
            simp [dateWindowKeep, hit, hp]
          simp [filterByDateGo, hit, hp, hrest, List.filter_cons, hk]
        | some d =>
          have hk : dateWindowKeep f sd ed item = dateKeep sd ed d := by
            simp [dateWindowKeep, hit, hp]
          simp [filterByDateGo, hit, hp, hrest, List.filter_cons, hk]
      | vNone => simp [dateFieldWellTyped, hit] at hitem
      | vInt n => simp [dateFieldWellTyped, hit] at hitem
      | vBool b => simp [dateFieldWellTyped, hit] at hitem

/-! ## Text-cleaning lemmas -/

theorem foldl_cleanStep_get (pp : Value → Value) (item : Record) (k : String) :
    ∀ (tfs : List String) (acc : Record),
      (k ∉ tfs ∨ recGet? item k = none ∨
        (∃ v, recGet? item k = some v ∧ truthy v = false)) →
      recGet? acc k = recGet? item k →
      recGet? (tfs.foldl (cleanStep pp item) acc) k = recGet? item k := by
  intro tfs
  induction tfs with
  | nil => intro acc _ hacc; exact hacc
  | cons f0 rest ih =>
    intro acc hcond hacc
    rw [List.foldl_cons]
    apply ih
    · rcases hcond with h | h
      · exact Or.inl (fun hm => h (List.mem_cons_of_mem _ hm))
      · exact Or.inr h
    · by_cases hf : f0 = k
      · subst hf
        rcases hcond with h | h | ⟨v, hv, htr⟩
        · exact absurd (List.mem_cons_self _ _) h
        · simpa [cleanStep, h] using hacc
        · simpa [cleanStep, hv, htr] using hacc
      · cases hg : recGet? item f0 with
        | none => simpa [cleanStep, hg] using hacc
        | some v =>
          by_cases htr : truthy v
          · rw [show cleanStep pp item acc f0 = recSet acc f0 (pp v) by
              simp [cleanStep, hg, htr]]
            unfold recGet? recSet
            rw [alistGet?_set_ne acc f0 (pp v) k (fun he => hf he.symm)]
            exact hacc
          · simpa [cleanStep, hg, htr] using hacc

/-! ## Claim C5 -/

/-- C5: for every batch of records containing duplicate identifiers,
`remove_duplicates` returns exactly one record per identifier, and the
record kept for an identifier is the last one bearing it in input order:
for any identifier value `k` whose last carrier in `data` is `r`, the
deduplicated output contains exactly the one record `r` under `k`. -/
theorem c5_remove_duplicates_last_write_wins (data : List Record)
    (key_field : String) (k : Value) (r : Record)
    (hlast : data.reverse.find? (keyIs key_field k) = some r) :
    (remove_duplicates data key_field).filter (keyIs key_field k) = [r] :=
  remove_duplicates_filter data key_field k r hlast

theorem c5_remove_duplicates_last_write_wins_witness :
    dedupBatch.reverse.find? (keyIs "id" (Value.vStr "a")) =
      some [("id", Value.vStr "a"), ("score", Value.vInt 7)] ∧
    (remove_duplicates dedupBatch "id").filter (keyIs "id" (Value.vStr "a")) =
      [[("id", Value.vStr "a"), ("score", Value.vInt 7)]] :=
  ⟨by decide,
   c5_remove_duplicates_last_write_wins dedupBatch "id" (Value.vStr "a")
     [("id", Value.vStr "a"), ("score", Value.vInt 7)] (by decide)⟩

/-! ## Claim C9 -/

/-- C9: `remove_duplicates` excludes every record that lacks the key field
entirely: such a record never appears in the deduplicated output. -/
theorem c9_remove_duplicates_drops_keyless (data : List Record)
    (key_field : String) (r : Record) (h : recGet? r key_field = none) :
    r ∉ remove_duplicates data key_field := by
  intro hmem
  have hs := mem_remove_duplicates_isSome data key_field r hmem
  rw [h] at hs
  simp at hs

theorem c9_remove_duplicates_drops_keyless_witness :
    recGet? [("title", Value.vStr "x")] "id" = none ∧
    [("title", Value.vStr "x")] ∉ remove_duplicates [[("title", Value.vStr "x")]] "id" :=
  ⟨by decide,
   c9_remove_duplicates_drops_keyless [[("title", Value.vStr "x")]] "id"
     [("title", Value.vStr "x")] (by decide)⟩

/-! ## Claim C6 -/

/-- C6: on a batch whose date fields are all `datetime`s or strings,
`filter_by_date` with `start = end = t` keeps exactly the records whose
timestamp denotes `t`; with no bound it passes the batch through unchanged;
and a record with an unparsable string timestamp is silently dropped
(never an error) whenever at least one bound is supplied. -/
theorem c6_filter_by_date_window (data : List Record) (f : String) (t : Nat)
    (hty : ∀ item ∈ data, dateFieldWellTyped f item = true) :
    filter_by_date data f (some t) (some t) =
      Except.ok (data.filter (timestampEquals f t)) ∧
    filter_by_date data f none none = Except.ok data ∧
    (∀ sd ed : Option Nat, sd.isSome ∨ ed.isSome → ∀ item ∈ data, ∀ s,
      recGet? item f = some (Value.vStr s) → fromisoformat? s = none →
      ∀ l, filter_by_date data f sd ed = Except.ok l → item ∉ l) := by
  refine ⟨?_, by simp [filter_by_date], ?_⟩
  · have hnb : ¬((some t : Option Nat) = none ∧ (some t : Option Nat) = none) := by
      simp
    unfold filter_by_date
    rw [if_neg hnb, filterByDateGo_ok f (some t) (some t) data hty,
      List.filter_congr (fun item _ => dateWindowKeep_both f t item)]
  · intro sd ed hbound item hitem s hs hp l hl
    have hnb : ¬(sd = none ∧ ed = none) := by
      rcases hbound with h | h
      · intro hc; rw [hc.1] at h; simp at h
      · intro hc; rw [hc.2] at h; simp at h
    unfold filter_by_date at hl
    rw [if_neg hnb, filterByDateGo_ok f sd ed data hty] at hl
    have hleq : l = data.filter (dateWindowKeep f sd ed) := by
      injection hl with h'
      exact h'.symm
    subst hleq
    intro hmem
    have := (List.mem_filter.mp hmem).2
    simp [dateWindowKeep, hs, hp] at this

theorem c6_filter_by_date_window_witness :
    (∀ item ∈ dateBatch, dateFieldWellTyped "created_utc" item = true) ∧
    dateBatch.filter (timestampEquals "created_utc" tSample) =
      [[("created_utc", Value.vTime tSample)],
       [("created_utc", Value.vStr "2023-01-15T12:30:00")]] ∧
    filter_by_date dateBatch "created_utc" (some tSample) (some tSample) =
      Except.ok (dateBatch.filter (timestampEquals "created_utc" tSample)) ∧
    filter_by_date dateBatch "created_utc" none none = Except.ok dateBatch ∧
    (∀ sd ed : Option Nat, sd.isSome ∨ ed.isSome → ∀ item ∈ dateBatch, ∀ s,
      recGet? item "created_utc" = some (Value.vStr s) → fromisoformat? s = none →
      ∀ l, filter_by_date dateBatch "created_utc" sd ed = Except.ok l → item ∉ l) :=
  ⟨by decide, by decide,
   (c6_filter_by_date_window dateBatch "created_utc" tSample (by decide)).1,
   (c6_filter_by_date_window dateBatch "created_utc" tSample (by decide)).2.1,
   (c6_filter_by_date_window dateBatch "created_utc" tSample (by decide)).2.2⟩

/-! ## Claim C10 -/

/-- C10: `clean_text_fields` is a frame-preserving map: the output batch
has the same length and positional order as the input, every field not in
the text-field list is unchanged, and a listed field that is absent or
falsy on the original record is unchanged as well.  (Non-mutation of the
input batch is inherent in this pure model: the input list is untouched
and every output record is a fresh value.) -/
theorem c10_clean_text_fields_frame (pp : Value → Value) (data : List Record)
    (tfs : List String) :
    (clean_text_fields pp data tfs).length = data.length ∧
    List.Forall₂ (fun item out =>
      (∀ k, k ∉ tfs → recGet? out k = recGet? item k) ∧
      (∀ k, recGet? item k = none → recGet? out k = none) ∧
      (∀ k v, recGet? item k = some v → truthy v = false → recGet? out k = some v))
      data (clean_text_fields pp data tfs) := by
  constructor
  · simp [clean_text_fields]
  · unfold clean_text_fields
    rw [List.forall₂_map_right_iff]
    rw [List.forall₂_same]
    intro item _
    refine ⟨?_, ?_, ?_⟩
    · intro k hk
      exact foldl_cleanStep_get pp item k tfs item (Or.inl hk) rfl
    · intro k hk
      rw [foldl_cleanStep_get pp item k tfs item (Or.inr (Or.inl hk)) rfl]
      exact hk
    · intro k v hv htr
      rw [foldl_cleanStep_get pp item k tfs item (Or.inr (Or.inr ⟨v, hv, htr⟩)) rfl]
      exact hv

theorem c10_clean_text_fields_frame_witness :
    (clean_text_fields (fun _ => Value.vStr "X") [samplePost, partialPost]
      ["title", "selftext"]).length = 2 ∧
    List.Forall₂ (fun item out =>
      (∀ k, k ∉ ["title", "selftext"] → recGet? out k = recGet? item k) ∧
      (∀ k, recGet? item k = none → recGet? out k = none) ∧
      (∀ k v, recGet? item k = some v → truthy v = false → recGet? out k = some v))
      [samplePost, partialPost]
      (clean_text_fields (fun _ => Value.vStr "X") [samplePost, partialPost]
        ["title", "selftext"]) :=
  ⟨(c10_clean_text_fields_frame (fun _ => Value.vStr "X") [samplePost, partialPost]
      ["title", "selftext"]).1,
   (c10_clean_text_fields_frame (fun _ => Value.vStr "X") [samplePost, partialPost]
      ["title", "selftext"]).2⟩

/-! ## Claim C7 -/

/-- C7: each relational `save_posts` / `save_comments` call is atomic — if
an exception occurs during the call (second component carries the
re-raised error), the transaction is rolled back and the stored rows are
exactly the rows from before the call. -/
theorem c7_sqlite_save_rollback (rows posts comments : List Record)
    (e1 e2 : String) :
    ((sqliteSavePosts rows posts).2 = some e1 →
      (sqliteSavePosts rows posts).1 = rows) ∧
    ((sqliteSaveComments rows comments).2 = some e2 →
      (sqliteSaveComments rows comments).1 = rows) := by
  constructor
  · intro h
    unfold sqliteSavePosts at h ⊢
    cases hl : sqliteSaveLoop postColumns rows posts with
    | ok r => rw [hl] at h; simp at h
    | error e => rfl
  · intro h
    unfold sqliteSaveComments at h ⊢
    cases hl : sqliteSaveLoop commentColumns rows comments with
    | ok r => rw [hl] at h; simp at h
    | error e => rfl

theorem c7_sqlite_save_rollback_witness :
    (sqliteSavePosts [] [samplePost, emptyRec]).2 = some "KeyError: id" ∧
    (sqliteSavePosts [] [samplePost, emptyRec]).1 = [] ∧
    (sqliteSaveComments [] [emptyRec]).2 = some "KeyError: id" ∧
    (sqliteSaveComments [] [emptyRec]).1 = [] :=
  ⟨by decide,
   (c7_sqlite_save_rollback [] [samplePost, emptyRec] [emptyRec]
     "KeyError: id" "KeyError: id").1 (by decide),
   by decide,
   (c7_sqlite_save_rollback [] [samplePost, emptyRec] [emptyRec]
     "KeyError: id" "KeyError: id").2 (by decide)⟩

/-! ## SQLite upsert lemmas -/

theorem recGet?_applyUpdates_not_key (cols : List String) (k : String) :
    ∀ (rec row : Record), k ∉ recKeys rec →
      recGet? (applyUpdates cols row rec) k = recGet? row k := by
  intro rec
  induction rec with
  | nil => intro row _; rfl
  | cons kv rest ih =>
    intro row hk
    have hk1 : kv.1 ≠ k := fun he => hk (by simp [recKeys, he])
    have hkr : k ∉ recKeys rest := fun hm => hk (by simp [recKeys] at hm ⊢; exact Or.inr hm)
    unfold applyUpdates
    rw [List.foldl_cons]
    by_cases hc : kv.1 ∈ cols
    · rw [if_pos hc]
      have := ih (recSet row kv.1 kv.2) hkr
      unfold applyUpdates at this
      rw [this]
      unfold recGet? recSet
      exact alistGet?_set_ne row kv.1 kv.2 k (fun he => hk1 he.symm)
    · rw [if_neg hc]
      exact ih row hkr

theorem recGet?_applyUpdates_of_mem (cols : List String) (k : String) (v : Value)
    (hcol : k ∈ cols) :
    ∀ (rec : Record), (recKeys rec).Nodup → (k, v) ∈ rec →
      ∀ row, recGet? (applyUpdates cols row rec) k = some v := by
  intro rec
  induction rec with
  | nil => intro _ hm; simp at hm
  | cons kv rest ih =>
    intro hnd hm row
    simp only [recKeys, List.map_cons, List.nodup_cons] at hnd
    unfold applyUpdates
    rw [List.foldl_cons]
    rcases List.mem_cons.mp hm with he | hm'
    · subst he
      rw [if_pos hcol]
      have hnotin : k ∉ recKeys rest := hnd.1
      have := recGet?_applyUpdates_not_key cols k rest (recSet row k v) hnotin
      unfold applyUpdates at this
      rw [this]
      unfold recGet? recSet
      exact alistGet?_set_self row k v
    · by_cases hc : kv.1 ∈ cols
      · rw [if_pos hc]
        exact ih hnd.2 hm' (recSet row kv.1 kv.2)
      · rw [if_neg hc]
        exact ih hnd.2 hm' row

theorem any_of_filter_eq_singleton {p : Record → Bool} {rows : List Record}
    {row0 : Record} (h : rows.filter p = [row0]) : rows.any p = true := by
  have hmem : row0 ∈ rows.filter p := by rw [h]; exact List.mem_cons_self _ _
  rw [List.any_eq_true]
  exact ⟨row0, (List.mem_filter.mp hmem).1, (List.mem_filter.mp hmem).2⟩

theorem filter_updateFirstMatching (cols : List String) (pid : Value) (rec : Record) :
    ∀ (rows : List Record) (row0 : Record),
      rows.filter (keyIs "id" pid) = [row0] →
      keyIs "id" pid (applyUpdates cols row0 rec) = true →
      (updateFirstMatching cols pid rec rows).filter (keyIs "id" pid) =
        [applyUpdates cols row0 rec] := by
  intro rows
  induction rows with
  | nil => intro row0 h; simp at h
  | cons r rest ih =>
    intro row0 hf hu0
    by_cases hr : keyIs "id" pid r = true
    · rw [List.filter_cons, if_pos hr] at hf
      have hhead : r = row0 := (List.cons.injEq _ _ _ _).mp hf |>.1
      have htail : rest.filter (keyIs "id" pid) = [] :=
        (List.cons.injEq _ _ _ _).mp hf |>.2
      subst hhead
      unfold updateFirstMatching
      rw [if_pos hr, List.filter_cons, if_pos hu0, htail]
    · rw [List.filter_cons, if_neg (by simp [hr])] at hf
      unfold updateFirstMatching
      rw [if_neg (by simp [hr]), List.filter_cons, if_neg (by simp [hr])]
      exact ih row0 hf hu0

theorem getD_vNone_eq_keyIs (r : Record) (key : String) (v : Value)
    (hv : v ≠ Value.vNone) :
    decide ((recGet? r key).getD Value.vNone = v) = keyIs key v r := by
  cases h : recGet? r key with
  | none => simp [keyIs, h, Ne.symm hv]
  | some w => simp [keyIs, h]

theorem sqliteGetPosts_single_filter (rows : List Record) (key : String) (v : Value)
    (hkey : key ∈ postColumns) (hv : v ≠ Value.vNone) :
    sqliteGetPosts rows [(key, v)] =
      (rows.filter (keyIs key v)).map (alignToCols postColumns) := by
  unfold sqliteGetPosts sqliteGetRows
  rw [if_neg (by simp)]
  congr 1
  apply List.filter_congr
  intro row _
  simp only [List.all_cons, List.all_nil, Bool.and_true, if_pos hkey]
  exact getD_vNone_eq_keyIs row key v hv

theorem sqliteGetPosts_nofilter (rows : List Record)
    (halign : ∀ r ∈ rows, recKeys r = postColumns) :
    sqliteGetPosts rows [] = rows := by
  unfold sqliteGetPosts sqliteGetRows
  rw [if_pos rfl]
  exact (List.map_congr_left (fun r hr =>
    alignToCols_eq_self postColumns r (halign r hr) (by decide))).trans
    (List.map_id' rows)

theorem sqliteSavePosts_update (rows : List Record) (p : Record) (pid : Value)
    (hpid : recGet? p "id" = some pid)
    (hany : rows.any (keyIs "id" pid) = true) :
    sqliteSavePosts rows [p] = (updateFirstMatching postColumns pid p rows, none) := by
  unfold sqliteSavePosts sqliteSaveLoop sqliteUpsertStep
  rw [hpid]
  simp [hany, sqliteSaveLoop]

theorem sqliteSavePosts_insert (rows : List Record) (p : Record) (pid : Value)
    (hpid : recGet? p "id" = some pid)
    (hnone : rows.filter (keyIs "id" pid) = [])
    (hkeys : recKeys p = postColumns) :
    sqliteSavePosts rows [p] = (rows ++ [alignToCols postColumns p], none) := by
  have hany : rows.any (keyIs "id" pid) = false := by
    rw [List.any_eq_false]
    intro x hx
    exact (List.filter_eq_nil_iff.mp hnone) x hx
  have hall : p.all (fun kv => decide (kv.1 ∈ postColumns)) = true := by
    rw [List.all_eq_true]
    intro kv hkv
    have hm : kv.1 ∈ recKeys p := List.mem_map_of_mem _ hkv
    rw [hkeys] at hm
    simpa using hm
  unfold sqliteSavePosts sqliteSaveLoop sqliteUpsertStep
  rw [hpid]
  simp [hany, hall, sqliteSaveLoop]

/-- Upserting a complete post whose identifier occurs at most once (the
primary-key invariant) and then querying by that identifier returns
exactly the saved post. -/
theorem sqlite_upsert_roundtrip (rows : List Record) (p : Record) (s : String)
    (hpid : recGet? p "id" = some (Value.vStr s))
    (hkeys : recKeys p = postColumns)
    (hle : (rows.filter (keyIs "id" (Value.vStr s))).length ≤ 1) :
    ∃ rows2, sqliteSavePosts rows [p] = (rows2, none) ∧
      sqliteGetPosts rows2 [("id", Value.vStr s)] = [p] := by
  have hnd : (recKeys p).Nodup := by rw [hkeys]; decide
  have halignp : alignToCols postColumns p = p :=
    alignToCols_eq_self postColumns p hkeys (by decide)
  have hkeyp : keyIs "id" (Value.vStr s) p = true := by simp [keyIs, hpid]
  rcases Nat.le_one_iff_eq_zero_or_eq_one.mp hle with h0 | h1
  · have hnone := List.length_eq_zero.mp h0
    refine ⟨rows ++ [alignToCols postColumns p],
      sqliteSavePosts_insert rows p (Value.vStr s) hpid hnone hkeys, ?_⟩
    rw [halignp, sqliteGetPosts_single_filter _ "id" (Value.vStr s) (by decide)
      (by simp), List.filter_append, hnone, List.filter_cons, if_pos hkeyp]
    simp [halignp]
  · obtain ⟨row0, hfil⟩ := List.length_eq_one.mp h1
    have hany := any_of_filter_eq_singleton hfil
    have hu : keyIs "id" (Value.vStr s) (applyUpdates postColumns row0 p) = true := by
      have hmem : ("id", Value.vStr s) ∈ p := alistGet?_mem p "id" _ hpid
      have hg := recGet?_applyUpdates_of_mem postColumns "id" (Value.vStr s)
        (by decide) p hnd hmem row0
      simp [keyIs, hg]
    refine ⟨updateFirstMatching postColumns (Value.vStr s) p rows,
      sqliteSavePosts_update rows p (Value.vStr s) hpid hany, ?_⟩
    rw [sqliteGetPosts_single_filter _ "id" (Value.vStr s) (by decide) (by simp),
      filter_updateFirstMatching postColumns (Value.vStr s) p rows row0 hfil hu]
    have hupd : ∀ c ∈ postColumns,
        recGet? (applyUpdates postColumns row0 p) c = recGet? p c := by
      intro c hc
      have hck : c ∈ recKeys p := by rw [hkeys]; exact hc
      obtain ⟨v, hv⟩ := alistGet?_of_mem_keys p c hck
      rw [show recGet? p c = some v from hv,
        recGet?_applyUpdates_of_mem postColumns c v hc p hnd (alistGet?_mem p c v hv) row0]
    simp only [List.map_cons, List.map_nil]
    rw [alignToCols_congr postColumns _ p hupd, halignp]

/-- The relational update path merges: input fields overwrite the stored
row's columns, and columns the input does not supply keep their stored
values. -/
theorem sqlite_merge_semantics (rows : List Record) (rec : Record) (pid : Value)
    (row0 : Record)
    (hpid : recGet? rec "id" = some pid)
    (hnd : (recKeys rec).Nodup)
    (hcols : ∀ k ∈ recKeys rec, k ∈ postColumns)
    (hfil : rows.filter (keyIs "id" pid) = [row0]) :
    sqliteSavePosts rows [rec] = (updateFirstMatching postColumns pid rec rows, none) ∧
    (updateFirstMatching postColumns pid rec rows).filter (keyIs "id" pid) =
      [applyUpdates postColumns row0 rec] ∧
    (∀ k v, recGet? rec k = some v →
      recGet? (applyUpdates postColumns row0 rec) k = some v) ∧
    (∀ k, recGet? rec k = none →
      recGet? (applyUpdates postColumns row0 rec) k = recGet? row0 k) := by
  have hany := any_of_filter_eq_singleton hfil
  have hu : keyIs "id" pid (applyUpdates postColumns row0 rec) = true := by
    have hmem : ("id", pid) ∈ rec := alistGet?_mem rec "id" _ hpid
    have hg := recGet?_applyUpdates_of_mem postColumns "id" pid (by decide)
      rec hnd hmem row0
    simp [keyIs, hg]
  refine ⟨sqliteSavePosts_update rows rec pid hpid hany,
    filter_updateFirstMatching postColumns pid rec rows row0 hfil hu, ?_, ?_⟩
  · intro k v hv
    have hk : k ∈ recKeys rec := List.mem_map_of_mem _ (alistGet?_mem rec k v hv)
    exact recGet?_applyUpdates_of_mem postColumns k v (hcols k hk) rec hnd
      (alistGet?_mem rec k v hv) row0
  · intro k hk
    exact recGet?_applyUpdates_not_key postColumns k rec row0
      ((alistGet?_eq_none rec k).mp hk)

/-! ## JSON upsert lemmas -/

theorem except_bind_ok {α β : Type} (a : α) (f : α → Except String β) :
    (Except.ok a >>= f) = f a := rfl

theorem buildIdDict_ok (recs : List Record) :
    ∀ d0, (∀ r ∈ recs, (recGet? r "id").isSome) →
      buildIdDict recs d0 = Except.ok (recs.foldl (dedupStep "id") d0) := by
  induction recs with
  | nil => intro d0 _; rfl
  | cons r rest ih =>
    intro d0 hids
    have hr := hids r (List.mem_cons_self _ _)
    cases hir : recGet? r "id" with
    | none => rw [hir] at hr; simp at hr
    | some k =>
      unfold buildIdDict
      rw [hir]
      show buildIdDict rest (alistSet d0 k r) = _
      rw [ih _ (fun x hx => hids x (List.mem_cons_of_mem _ hx)), List.foldl_cons]
      have hstep : dedupStep "id" d0 r = alistSet d0 k r := by
        simp [dedupStep, hir]
      rw [hstep]

theorem values_map_filter_of_dictInv (f : Value → Value) (key : String) (k : Value)
    (hfk : f k = k) :
    ∀ d : List (Value × Record), dictInv key d →
      (∀ kv ∈ d, kv.1 ≠ k → mapValues f kv.2 = kv.2) →
      ((d.map Prod.snd).map (mapValues f)).filter (keyIs key k) =
        ((alistGet? d k).map (mapValues f)).toList := by
  intro d
  induction d with
  | nil => intro _ _; simp [alistGet?]
  | cons kv rest ih =>
    intro hinv hfix
    have hinv' : dictInv key rest :=
      ⟨(List.nodup_cons.mp hinv.1).2, fun x hx => hinv.2 x (List.mem_cons_of_mem _ hx)⟩
    have hfix' : ∀ x ∈ rest, x.1 ≠ k → mapValues f x.2 = x.2 :=
      fun x hx => hfix x (List.mem_cons_of_mem _ hx)
    have hkv : recGet? kv.2 key = some kv.1 := hinv.2 kv (List.mem_cons_self _ _)
    by_cases hk1 : kv.1 = k
    · subst hk1
      have hhead : keyIs key kv.1 (mapValues f kv.2) = true := by
        simp [keyIs, recGet?_mapValues, hkv, hfk]
      have hnotin : kv.1 ∉ rest.map Prod.fst := (List.nodup_cons.mp hinv.1).1
      have hrest0 : ((rest.map Prod.snd).map (mapValues f)).filter (keyIs key kv.1)
          = [] := by
        rw [ih hinv' hfix', (alistGet?_eq_none rest kv.1).mpr hnotin]
        rfl
      rw [List.map_cons, List.map_cons, List.filter_cons, if_pos hhead, hrest0]
      have hg : alistGet? (kv :: rest) kv.1 = some kv.2 := by
        unfold alistGet?
        rw [if_pos rfl]
      rw [hg]
      rfl
    · have hf : keyIs key k (mapValues f kv.2) = false := by
        rw [hfix kv (List.mem_cons_self _ _) hk1]
        simp [keyIs, hkv, hk1]
      rw [List.map_cons, List.map_cons, List.filter_cons, if_neg (by simp [hf]),
        ih hinv' hfix']
      have hg : alistGet? (kv :: rest) k = alistGet? rest k := by
        show (if kv.1 = k then some kv.2 else alistGet? rest k) = alistGet? rest k
        rw [if_neg hk1]
      rw [hg]

theorem filterMatches_single (key : String) (v : Value) (hv : v ≠ Value.vNone)
    (r : Record) : filterMatches [(key, v)] r = keyIs key v r := by
  unfold filterMatches
  simp only [List.all_cons, List.all_nil, Bool.and_true]
  exact getD_vNone_eq_keyIs r key v hv

theorem jsonSavePosts_eq (stored posts : List Record)
    (h1 : ∀ r ∈ stored, (recGet? r "id").isSome)
    (h2 : ∀ r ∈ posts, (recGet? r "id").isSome) :
    jsonSavePosts stored posts = Except.ok
      (((posts.foldl (dedupStep "id") (stored.foldl (dedupStep "id") [])).map
        Prod.snd).map serializeRecord) := by
  unfold jsonSavePosts
  rw [buildIdDict_ok stored [] h1, except_bind_ok,
    buildIdDict_ok posts _ h2, except_bind_ok]
  rfl

/-- JSON upsert of a record `p` over any well-formed stored array: the new
array holds exactly one record under `p`'s identifier, namely the
serialization of `p`, and querying by that identifier returns it. -/
theorem json_upsert_single (stored : List Record) (p : Record) (s : String)
    (hids : ∀ r ∈ stored, (recGet? r "id").isSome)
    (hser : ∀ r ∈ stored, serializeRecord r = r)
    (hpid : recGet? p "id" = some (Value.vStr s)) :
    ∃ out, jsonSavePosts stored [p] = Except.ok out ∧
      out.filter (keyIs "id" (Value.vStr s)) = [serializeRecord p] ∧
      jsonGetPosts out [("id", Value.vStr s)] = [serializeRecord p] := by
  have hp : ∀ r ∈ [p], (recGet? r "id").isSome := by
    intro r hr
    rw [List.mem_singleton.mp hr, hpid]
    rfl
  have hsave := jsonSavePosts_eq stored [p] hids hp
  rw [List.foldl_cons, List.foldl_nil] at hsave
  have hstep : dedupStep "id" (stored.foldl (dedupStep "id") []) p =
      alistSet (stored.foldl (dedupStep "id") []) (Value.vStr s) p := by
    simp [dedupStep, hpid]
  have hinv1 : dictInv "id" (dedupStep "id" (stored.foldl (dedupStep "id") []) p) :=
    dictInv_dedupStep _ _ _ (dictInv_foldl _ stored [] (dictInv_nil _))
  have hfix : ∀ kv ∈ dedupStep "id" (stored.foldl (dedupStep "id") []) p,
      kv.1 ≠ Value.vStr s → mapValues serializeValue kv.2 = kv.2 := by
    intro kv hkv hne
    rw [hstep] at hkv
    rcases mem_alistSet _ _ _ _ hkv with he | hm
    · exact absurd (congrArg Prod.fst he) (by simpa using hne)
    · rcases snd_mem_foldl_dedupStep "id" stored [] kv hm with h' | h'
      · simp at h'
      · exact hser kv.2 h'
  have hget1 : alistGet? (dedupStep "id" (stored.foldl (dedupStep "id") []) p)
      (Value.vStr s) = some p := by
    rw [hstep]
    exact alistGet?_set_self _ _ _
  have hfilter := values_map_filter_of_dictInv serializeValue "id" (Value.vStr s)
    rfl _ hinv1 hfix
  rw [hget1] at hfilter
  refine ⟨_, hsave, hfilter, ?_⟩
  unfold jsonGetPosts
  rw [if_neg (by simp),
    List.filter_congr (fun r _ => filterMatches_single "id" (Value.vStr s) (by simp) r)]
  exact hfilter

/-! ## CSV column and dedup lemmas -/

theorem colsStep_subset (r : Record) : ∀ acc, (∀ k ∈ recKeys r, k ∈ acc) →
    colsStep acc r = acc := by
  induction r with
  | nil => intro acc _; rfl
  | cons kv rest ih =>
    intro acc hsub
    unfold colsStep
    rw [List.foldl_cons, if_pos (hsub kv.1 (by simp [recKeys]))]
    exact ih acc (fun k hk => hsub k (by simp [recKeys] at hk ⊢; exact Or.inr hk))

theorem colsStep_fresh (r : Record) : ∀ acc, (recKeys r).Nodup →
    (∀ k ∈ recKeys r, k ∉ acc) → colsStep acc r = acc ++ recKeys r := by
  induction r with
  | nil => intro acc _ _; simp [colsStep, recKeys]
  | cons kv rest ih =>
    intro acc hnd hfresh
    simp only [recKeys, List.map_cons, List.nodup_cons] at hnd
    unfold colsStep
    rw [List.foldl_cons, if_neg (hfresh kv.1 (by simp [recKeys]))]
    have hih := ih (acc ++ [kv.1]) hnd.2 (by
      intro k hk
      rw [List.mem_append]
      rintro (h | h)
      · have hk' : k ∈ recKeys (kv :: rest) := List.mem_cons_of_mem kv.1 hk
        exact hfresh k hk' h
      · exact hnd.1 ((List.mem_singleton.mp h) ▸ hk))
    unfold colsStep at hih
    rw [hih, List.append_assoc]
    simp [recKeys]

theorem colsOf_foldl_stable (cols : List String) : ∀ recs : List Record,
    (∀ r ∈ recs, ∀ k ∈ recKeys r, k ∈ cols) →
    recs.foldl colsStep cols = cols := by
  intro recs
  induction recs with
  | nil => intro _; rfl
  | cons r rest ih =>
    intro hsub
    rw [List.foldl_cons, colsStep_subset r cols (hsub r (List.mem_cons_self _ _))]
    exact ih (fun x hx => hsub x (List.mem_cons_of_mem _ hx))

theorem colsOf_cons_uniform (r0 : Record) (recs : List Record) (cols : List String)
    (h0 : recKeys r0 = cols) (hnd : cols.Nodup)
    (hsub : ∀ r ∈ recs, ∀ k ∈ recKeys r, k ∈ cols) :
    colsOf (r0 :: recs) = cols := by
  unfold colsOf
  rw [List.foldl_cons]
  have h1 : colsStep [] r0 = cols := by
    rw [colsStep_fresh r0 [] (h0 ▸ hnd) (by simp), List.nil_append, h0]
  rw [h1]
  exact colsOf_foldl_stable cols recs hsub

theorem colsOf_uniform_append (rows extra : List Record) (cols : List String)
    (hrows : ∀ r ∈ rows, recKeys r = cols) (hne : rows ≠ []) (hnd : cols.Nodup)
    (hextra : ∀ r ∈ extra, ∀ k ∈ recKeys r, k ∈ cols) :
    colsOf (rows ++ extra) = cols := by
  cases rows with
  | nil => exact absurd rfl hne
  | cons r0 rest =>
    rw [List.cons_append]
    refine colsOf_cons_uniform r0 (rest ++ extra) cols
      (hrows r0 (List.mem_cons_self _ _)) hnd ?_
    intro r hr k hk
    rcases List.mem_append.mp hr with h | h
    · rw [hrows r (List.mem_cons_of_mem _ h)] at hk
      exact hk
    · exact hextra r h k hk

theorem colsOf_uniform (rows : List Record) (cols : List String)
    (hrows : ∀ r ∈ rows, recKeys r = cols) (hne : rows ≠ []) (hnd : cols.Nodup) :
    colsOf rows = cols := by
  have h := colsOf_uniform_append rows [] cols hrows hne hnd (by simp)
  rwa [List.append_nil] at h

theorem mem_dropDupLast (key : String) : ∀ (l : List Record) (x : Record),
    x ∈ dropDupLast key l → x ∈ l := by
  intro l
  induction l with
  | nil => intro x h; simp [dropDupLast] at h
  | cons r rest ih =>
    intro x h
    unfold dropDupLast at h
    by_cases hd : rest.any (fun r2 => decide (recGet? r2 key = recGet? r key)) = true
    · rw [if_pos hd] at h
      exact List.mem_cons_of_mem _ (ih x h)
    · rw [if_neg hd] at h
      rcases List.mem_cons.mp h with he | hm
      · exact he ▸ List.mem_cons_self _ _
      · exact List.mem_cons_of_mem _ (ih x hm)

theorem dropDupLast_filter_last (key : String) (kval : Value) :
    ∀ (l : List Record) (r : Record),
      l.reverse.find? (keyIs key kval) = some r →
      (dropDupLast key l).filter (keyIs key kval) = [r] := by
  intro l
  induction l with
  | nil => intro r h; simp at h
  | cons x rest ih =>
    intro r hlast
    rw [List.reverse_cons, List.find?_append] at hlast
    unfold dropDupLast
    by_cases hd : rest.any (fun r2 => decide (recGet? r2 key = recGet? x key)) = true
    · rw [if_pos hd]
      cases hfr : rest.reverse.find? (keyIs key kval) with
      | some r' =>
        rw [hfr] at hlast
        have he : r' = r := by simpa [Option.or] using hlast
        exact he ▸ ih r' hfr
      | none =>
        rw [hfr] at hlast
        have hx : List.find? (keyIs key kval) [x] = some r := by
          simpa [Option.or] using hlast
        have hpx : keyIs key kval x = true := by
          cases hb : keyIs key kval x with
          | true => rfl
          | false => simp [List.find?, hb] at hx
        have hxval : recGet? x key = some kval := by simpa [keyIs] using hpx
        obtain ⟨r2, hr2, he2⟩ := List.any_eq_true.mp hd
        have he2' : recGet? r2 key = recGet? x key := of_decide_eq_true he2
        have hp2 : keyIs key kval r2 = true := by simp [keyIs, he2', hxval]
        exact absurd hp2 (List.find?_eq_none.mp hfr r2 (List.mem_reverse.mpr hr2))
    · rw [if_neg hd, List.filter_cons]
      by_cases hpx : keyIs key kval x = true
      · rw [if_pos hpx]
        have hxval : recGet? x key = some kval := by simpa [keyIs] using hpx
        have hnone : rest.reverse.find? (keyIs key kval) = none := by
          rw [List.find?_eq_none]
          intro r2 hr2 hp2
          apply hd
          rw [List.any_eq_true]
          refine ⟨r2, List.mem_reverse.mp hr2, ?_⟩
          have h2 : recGet? r2 key = some kval := by simpa [keyIs] using hp2
          simp [h2, hxval]
        rw [hnone] at hlast
        have hxr : x = r := by
          have hx : List.find? (keyIs key kval) [x] = some r := by
            simpa [Option.or] using hlast
          simpa [List.find?, hpx] using hx
        have hrest0 : (dropDupLast key rest).filter (keyIs key kval) = [] := by
          rw [List.filter_eq_nil_iff]
          intro a ha hpa
          exact (List.find?_eq_none.mp hnone a
            (List.mem_reverse.mpr (mem_dropDupLast key rest a ha))) hpa
        rw [hrest0, hxr]
      · rw [if_neg hpx]
        cases hfr : rest.reverse.find? (keyIs key kval) with
        | some r' =>
          rw [hfr] at hlast
          have he : r' = r := by simpa [Option.or] using hlast
          exact he ▸ ih r' hfr
        | none =>
          rw [hfr] at hlast
          have hx : List.find? (keyIs key kval) [x] = some r := by
            simpa [Option.or] using hlast
          simp [List.find?, hpx] at hx

theorem csvEq_getD_eq_keyIs (r : Record) (key : String) (v : Value)
    (hv : v ≠ Value.vNone) :
    csvEq ((recGet? r key).getD Value.vNone) v = keyIs key v r := by
  cases h : recGet? r key with
  | none => simp [csvEq, keyIs, h]
  | some w =>
    by_cases hw : w = Value.vNone
    · subst hw
      simp [csvEq, keyIs, h, Ne.symm hv]
    · simp [csvEq, keyIs, h, hw]

theorem csvGetPosts_nofilter (rows : List Record) :
    csvGetPosts (some rows) [] = rows.map (alignToCols (colsOf rows)) := by
  simp only [csvGetPosts]
  rw [if_pos trivial]

theorem csvGetPosts_single_filter (rows : List Record) (key : String) (v : Value)
    (hkey : key ∈ colsOf rows) (hv : v ≠ Value.vNone) :
    csvGetPosts (some rows) [(key, v)] =
      (rows.filter (keyIs key v)).map (alignToCols (colsOf rows)) := by
  simp only [csvGetPosts]
  rw [if_neg (show ¬([(key, v)] : List (String × Value)) = [] by simp),
    List.foldl_cons, List.foldl_nil, if_pos hkey,
    List.filter_congr (fun r _ => csvEq_getD_eq_keyIs r key v hv)]

theorem csvSavePosts_existing (rows : List Record) (p : Record)
    (hrows : ∀ r ∈ rows, recKeys r = postColumns) (hne : rows ≠ [])
    (hsub : ∀ k ∈ recKeys p, k ∈ postColumns) :
    csvSavePosts (some rows) [p] = Except.ok (some
      ((dropDupLast "id" (rows ++ [alignToCols postColumns p])).map
        csvSerializeRecord)) := by
  have hcols : colsOf (rows ++ [p]) = postColumns := by
    refine colsOf_uniform_append rows [p] postColumns hrows hne (by decide) ?_
    intro r hr k hk
    rw [List.mem_singleton.mp hr] at hk
    exact hsub k hk
  have hmap : (rows ++ [p]).map (alignToCols postColumns) =
      rows ++ [alignToCols postColumns p] := by
    rw [List.map_append]
    congr 1
    exact (List.map_congr_left (fun r hr =>
      alignToCols_eq_self postColumns r (hrows r hr) (by decide))).trans
      (List.map_id' rows)
  show (if "id" ∈ colsOf (rows ++ [p]) then
      Except.ok (some ((dropDupLast "id"
        ((rows ++ [p]).map (alignToCols (colsOf (rows ++ [p]))))).map
        csvSerializeRecord))
    else Except.error "KeyError: id") = _
  rw [hcols, if_pos (show "id" ∈ postColumns by decide), hmap]

/-- Upserting a record into an existing uniform post table keeps exactly
one row under its identifier — the serialized alignment of the input —
and querying by that identifier returns it. -/
theorem csv_upsert_roundtrip (rows : List Record) (p : Record) (s : String)
    (hrows : ∀ r ∈ rows, recKeys r = postColumns)
    (hcser : ∀ r ∈ rows, csvSerializeRecord r = r)
    (hne : rows ≠ [])
    (hsub : ∀ k ∈ recKeys p, k ∈ postColumns)
    (hpid : recGet? p "id" = some (Value.vStr s)) :
    ∃ out, csvSavePosts (some rows) [p] = Except.ok (some out) ∧
      out.filter (keyIs "id" (Value.vStr s)) =
        [csvSerializeRecord (alignToCols postColumns p)] ∧
      csvGetPosts (some out) [("id", Value.vStr s)] =
        [csvSerializeRecord (alignToCols postColumns p)] := by
  have halignid : recGet? (alignToCols postColumns p) "id" = some (Value.vStr s) := by
    rw [recGet?_alignToCols_mem postColumns p "id" (by decide), hpid]
    rfl
  have hkeyalign : keyIs "id" (Value.vStr s) (alignToCols postColumns p) = true := by
    simp [keyIs, halignid]
  have hserid : recGet? (csvSerializeRecord (alignToCols postColumns p)) "id" =
      some (Value.vStr s) := by
    unfold csvSerializeRecord
    rw [recGet?_mapValues, halignid]
    rfl
  have hlast : (rows ++ [alignToCols postColumns p]).reverse.find?
      (keyIs "id" (Value.vStr s)) = some (alignToCols postColumns p) := by
    rw [List.reverse_append, List.find?_append]
    have h1 : ([alignToCols postColumns p].reverse).find?
        (keyIs "id" (Value.vStr s)) = some (alignToCols postColumns p) := by
      simp [List.find?, hkeyalign]
    rw [h1]
    rfl
  have hfildrop := dropDupLast_filter_last "id" (Value.vStr s)
    (rows ++ [alignToCols postColumns p]) (alignToCols postColumns p) hlast
  have hpred : ∀ x ∈ dropDupLast "id" (rows ++ [alignToCols postColumns p]),
      keyIs "id" (Value.vStr s) (csvSerializeRecord x) =
        keyIs "id" (Value.vStr s) x := by
    intro x hx
    rcases List.mem_append.mp (mem_dropDupLast _ _ x hx) with hxr | hxp
    · rw [hcser x hxr]
    · rw [List.mem_singleton.mp hxp]
      rw [hkeyalign]
      simp [keyIs, hserid]
  have hpredc : ∀ x ∈ dropDupLast "id" (rows ++ [alignToCols postColumns p]),
      (keyIs "id" (Value.vStr s) ∘ csvSerializeRecord) x =
        keyIs "id" (Value.vStr s) x :=
    fun x hx => hpred x hx
  have hfilter : ((dropDupLast "id" (rows ++ [alignToCols postColumns p])).map
      csvSerializeRecord).filter (keyIs "id" (Value.vStr s)) =
      [csvSerializeRecord (alignToCols postColumns p)] := by
    rw [List.filter_map, List.filter_congr hpredc, hfildrop]
    rfl
  refine ⟨_, csvSavePosts_existing rows p hrows hne hsub, hfilter, ?_⟩
  have hkeysout : ∀ r ∈ (dropDupLast "id" (rows ++ [alignToCols postColumns p])).map
      csvSerializeRecord, recKeys r = postColumns := by
    intro r hr
    obtain ⟨x, hx, he⟩ := List.mem_map.mp hr
    rcases List.mem_append.mp (mem_dropDupLast _ _ x hx) with hxr | hxp
    · rw [← he]
      unfold csvSerializeRecord
      rw [keys_mapValues]
      exact hrows x hxr
    · rw [← he, List.mem_singleton.mp hxp]
      unfold csvSerializeRecord
      rw [keys_mapValues]
      exact keys_alignToCols postColumns p
  have houtne : (dropDupLast "id" (rows ++ [alignToCols postColumns p])).map
      csvSerializeRecord ≠ [] := by
    intro h0
    rw [h0] at hfilter
    simp at hfilter
  have hcolsout : colsOf ((dropDupLast "id" (rows ++ [alignToCols postColumns p])).map
      csvSerializeRecord) = postColumns :=
    colsOf_uniform _ postColumns hkeysout houtne (by decide)
  rw [csvGetPosts_single_filter _ "id" (Value.vStr s)
    (by rw [hcolsout]; decide) (by simp), hcolsout, hfilter]
  simp only [List.map_cons, List.map_nil]
  rw [alignToCols_eq_self postColumns _ (by
    unfold csvSerializeRecord
    rw [keys_mapValues]
    exact keys_alignToCols postColumns p) (by decide)]

/-! ## Claim C1 -/

/-- C1: for each backend variant, saving a complete post whose identifier
already exists in storage and then querying by that identifier yields
exactly one stored record carrying the most recently saved values (in
particular the new score); for the file backends the stored copy is the
input as serialized by that backend (`datetime` fields rendered as
strings, every other field — the score included — unchanged). -/
theorem c1_upsert_existing_latest (rows stored csvRows : List Record)
    (p : Record) (s : String) (n : Int)
    (hpid : recGet? p "id" = some (Value.vStr s))
    (hscore : recGet? p "score" = some (Value.vInt n))
    (hkeys : recKeys p = postColumns)
    (hsqlex : (rows.filter (keyIs "id" (Value.vStr s))).length = 1)
    (hjids : ∀ r ∈ stored, (recGet? r "id").isSome)
    (hjser : ∀ r ∈ stored, serializeRecord r = r)
    (_hjex : ∃ r ∈ stored, keyIs "id" (Value.vStr s) r = true)
    (hcrows : ∀ r ∈ csvRows, recKeys r = postColumns)
    (hcser : ∀ r ∈ csvRows, csvSerializeRecord r = r)
    (hcex : ∃ r ∈ csvRows, keyIs "id" (Value.vStr s) r = true) :
    (∃ rows2, sqliteSavePosts rows [p] = (rows2, none) ∧
      sqliteGetPosts rows2 [("id", Value.vStr s)] = [p]) ∧
    (∃ out, jsonSavePosts stored [p] = Except.ok out ∧
      jsonGetPosts out [("id", Value.vStr s)] = [serializeRecord p] ∧
      recGet? (serializeRecord p) "score" = some (Value.vInt n)) ∧
    (∃ cout, csvSavePosts (some csvRows) [p] = Except.ok (some cout) ∧
      csvGetPosts (some cout) [("id", Value.vStr s)] = [csvSerializeRecord p] ∧
      recGet? (csvSerializeRecord p) "score" = some (Value.vInt n)) := by
  have hcne : csvRows ≠ [] := by
    obtain ⟨r, hr, _⟩ := hcex
    intro h0
    rw [h0] at hr
    simp at hr
  have halignp : alignToCols postColumns p = p :=
    alignToCols_eq_self postColumns p hkeys (by decide)
  refine ⟨?_, ?_, ?_⟩
  · exact sqlite_upsert_roundtrip rows p s hpid hkeys (hsqlex ▸ Nat.le_refl 1)
  · obtain ⟨out, h1, _, h3⟩ := json_upsert_single stored p s hjids hjser hpid
    refine ⟨out, h1, h3, ?_⟩
    unfold serializeRecord
    rw [recGet?_mapValues, hscore]
    rfl
  · obtain ⟨cout, h1, _, h3⟩ := csv_upsert_roundtrip csvRows p s hcrows hcser hcne
      (by intro k hk; rw [hkeys] at hk; exact hk) hpid
    rw [halignp] at h3
    refine ⟨cout, h1, h3, ?_⟩
    unfold csvSerializeRecord
    rw [recGet?_mapValues, hscore]
    rfl

theorem c1_upsert_existing_latest_witness :
    (∃ rows2, sqliteSavePosts [samplePost] [samplePost2] = (rows2, none) ∧
      sqliteGetPosts rows2 [("id", Value.vStr "p1")] = [samplePost2]) ∧
    (∃ out, jsonSavePosts [serializeRecord samplePost] [samplePost2] =
        Except.ok out ∧
      jsonGetPosts out [("id", Value.vStr "p1")] = [serializeRecord samplePost2] ∧
      recGet? (serializeRecord samplePost2) "score" = some (Value.vInt 9)) ∧
    (∃ cout, csvSavePosts (some [csvSerializeRecord samplePost]) [samplePost2] =
        Except.ok (some cout) ∧
      csvGetPosts (some cout) [("id", Value.vStr "p1")] =
        [csvSerializeRecord samplePost2] ∧
      recGet? (csvSerializeRecord samplePost2) "score" = some (Value.vInt 9)) :=
  c1_upsert_existing_latest [samplePost] [serializeRecord samplePost]
    [csvSerializeRecord samplePost] samplePost2 "p1" 9
    (by decide) (by decide) (by decide) (by decide) (by decide) (by decide)
    (by decide) (by decide) (by decide) (by decide)

/-! ## Claim C4 -/

/-- C4: round-trip — saving a complete post and then querying by its
identifier yields one record equal to the input in all fields: for the
document-file variant the returned record is the input's serialization
(each `datetime` field compared as the same ISO-8601 string, every other
field unchanged, as the final conjunct makes precise), and for the
relational variant the returned record is the input itself (timestamps as
the same temporal value). -/
theorem c4_save_get_roundtrip (stored rows : List Record) (p : Record) (s : String)
    (hpid : recGet? p "id" = some (Value.vStr s))
    (hkeys : recKeys p = postColumns)
    (hjids : ∀ r ∈ stored, (recGet? r "id").isSome)
    (hjser : ∀ r ∈ stored, serializeRecord r = r)
    (hsql : (rows.filter (keyIs "id" (Value.vStr s))).length ≤ 1) :
    (∃ out, jsonSavePosts stored [p] = Except.ok out ∧
      jsonGetPosts out [("id", Value.vStr s)] = [serializeRecord p] ∧
      (∀ k, recGet? (serializeRecord p) k = (recGet? p k).map serializeValue)) ∧
    (∃ rows2, sqliteSavePosts rows [p] = (rows2, none) ∧
      sqliteGetPosts rows2 [("id", Value.vStr s)] = [p]) := by
  constructor
  · obtain ⟨out, h1, _, h3⟩ := json_upsert_single stored p s hjids hjser hpid
    exact ⟨out, h1, h3, fun k => recGet?_mapValues serializeValue p k⟩
  · exact sqlite_upsert_roundtrip rows p s hpid hkeys hsql

theorem c4_save_get_roundtrip_witness :
    (∃ out, jsonSavePosts [] [samplePost] = Except.ok out ∧
      jsonGetPosts out [("id", Value.vStr "p1")] = [serializeRecord samplePost] ∧
      (∀ k, recGet? (serializeRecord samplePost) k =
        (recGet? samplePost k).map serializeValue)) ∧
    (∃ rows2, sqliteSavePosts [] [samplePost] = (rows2, none) ∧
      sqliteGetPosts rows2 [("id", Value.vStr "p1")] = [samplePost]) :=
  c4_save_get_roundtrip [] [] samplePost "p1" (by decide) (by decide)
    (by decide) (by decide) (by decide)

/-! ## Claim C2 -/

/-- C2 as stated is false on the relational variant: saving an input that
supplies only `id` and `title` over a stored post leaves the stored row's
`score` at its old value `5`, while the input carries no `score` at all —
an update merges instead of replacing every field. -/
theorem c2_full_replace_fails_on_sqlite :
    (sqliteSavePosts [samplePost] [partialPost]).2 = none ∧
    ((sqliteSavePosts [samplePost] [partialPost]).1.filter
      (keyIs "id" (Value.vStr "p1"))).map (fun r => recGet? r "score") =
      [some (Value.vInt 5)] ∧
    recGet? partialPost "score" = none := by decide

/-- C2 amended: the document-file variant fully replaces the stored record
with the input (serialized field by field); the relational variant merges —
fields present in the input overwrite the row's columns and columns the
input does not supply keep their stored values; the tabular-file variant
replaces the stored row by the input's row aligned to the table's columns,
with columns the input does not supply left empty (`NaN`). -/
theorem c2_amended_upsert_semantics :
    (∀ (stored : List Record) (p : Record) (s : String),
      (∀ r ∈ stored, (recGet? r "id").isSome) →
      (∀ r ∈ stored, serializeRecord r = r) →
      recGet? p "id" = some (Value.vStr s) →
      ∃ out, jsonSavePosts stored [p] = Except.ok out ∧
        out.filter (keyIs "id" (Value.vStr s)) = [serializeRecord p] ∧
        (∀ k, recGet? (serializeRecord p) k = (recGet? p k).map serializeValue)) ∧
    (∀ (rows : List Record) (rec : Record) (pid : Value) (row0 : Record),
      recGet? rec "id" = some pid →
      (recKeys rec).Nodup →
      (∀ k ∈ recKeys rec, k ∈ postColumns) →
      rows.filter (keyIs "id" pid) = [row0] →
      ∃ rows2, sqliteSavePosts rows [rec] = (rows2, none) ∧
        rows2.filter (keyIs "id" pid) = [applyUpdates postColumns row0 rec] ∧
        (∀ k v, recGet? rec k = some v →
          recGet? (applyUpdates postColumns row0 rec) k = some v) ∧
        (∀ k, recGet? rec k = none →
          recGet? (applyUpdates postColumns row0 rec) k = recGet? row0 k)) ∧
    (∀ (csvRows : List Record) (rec : Record) (s : String),
      (∀ r ∈ csvRows, recKeys r = postColumns) →
      (∀ r ∈ csvRows, csvSerializeRecord r = r) →
      csvRows ≠ [] →
      (∀ k ∈ recKeys rec, k ∈ postColumns) →
      recGet? rec "id" = some (Value.vStr s) →
      ∃ out, csvSavePosts (some csvRows) [rec] = Except.ok (some out) ∧
        out.filter (keyIs "id" (Value.vStr s)) =
          [csvSerializeRecord (alignToCols postColumns rec)] ∧
        (∀ k ∈ postColumns, recGet? (alignToCols postColumns rec) k =
          some ((recGet? rec k).getD Value.vNone))) := by
  refine ⟨?_, ?_, ?_⟩
  · intro stored p s hids hser hpid
    obtain ⟨out, h1, h2, _⟩ := json_upsert_single stored p s hids hser hpid
    exact ⟨out, h1, h2, fun k => recGet?_mapValues serializeValue p k⟩
  · intro rows rec pid row0 hpid hnd hcols hfil
    obtain ⟨h1, h2, h3, h4⟩ := sqlite_merge_semantics rows rec pid row0 hpid hnd
      hcols hfil
    exact ⟨updateFirstMatching postColumns pid rec rows, h1, h2, h3, h4⟩
  · intro csvRows rec s hrows hser hne hsub hpid
    obtain ⟨out, h1, h2, _⟩ := csv_upsert_roundtrip csvRows rec s hrows hser hne
      hsub hpid
    exact ⟨out, h1, h2, fun k hk => recGet?_alignToCols_mem postColumns rec k hk⟩

theorem c2_amended_upsert_semantics_witness :
    (∃ out, jsonSavePosts [serializeRecord samplePost] [partialPost] =
        Except.ok out ∧
      out.filter (keyIs "id" (Value.vStr "p1")) = [serializeRecord partialPost] ∧
      (∀ k, recGet? (serializeRecord partialPost) k =
        (recGet? partialPost k).map serializeValue)) ∧
    (∃ rows2, sqliteSavePosts [samplePost] [partialPost] = (rows2, none) ∧
      rows2.filter (keyIs "id" (Value.vStr "p1")) =
        [applyUpdates postColumns samplePost partialPost] ∧
      (∀ k v, recGet? partialPost k = some v →
        recGet? (applyUpdates postColumns samplePost partialPost) k = some v) ∧
      (∀ k, recGet? partialPost k = none →
        recGet? (applyUpdates postColumns samplePost partialPost) k =
          recGet? samplePost k)) ∧
    (∃ out, csvSavePosts (some [csvSerializeRecord samplePost]) [partialPost] =
        Except.ok (some out) ∧
      out.filter (keyIs "id" (Value.vStr "p1")) =
        [csvSerializeRecord (alignToCols postColumns partialPost)] ∧
      (∀ k ∈ postColumns, recGet? (alignToCols postColumns partialPost) k =
        some ((recGet? partialPost k).getD Value.vNone))) :=
  ⟨c2_amended_upsert_semantics.1 [serializeRecord samplePost] partialPost "p1"
    (by decide) (by decide) (by decide),
   c2_amended_upsert_semantics.2.1 [samplePost] partialPost (Value.vStr "p1")
    samplePost (by decide) (by decide) (by decide) (by decide),
   c2_amended_upsert_semantics.2.2 [csvSerializeRecord samplePost] partialPost
    "p1" (by decide) (by decide) (by decide) (by decide) (by decide)⟩

/-! ## Claim C3 -/

/-- C3 as stated is false on the tabular-file variant: with a stored table
whose single record has no `score` field, the filter `{'score': 5}` names
no column, is silently ignored, and the record — whose score is not 5 —
is returned anyway instead of the empty subset. -/
theorem c3_score_filter_fails_on_csv :
    csvGetPosts (some [[("id", Value.vStr "a")]]) [("score", Value.vInt 5)] =
      [[("id", Value.vStr "a")]] ∧
    recGet? [("id", Value.vStr "a")] "score" = none := by decide

/-- C3 amended: `get_posts({})` returns all stored posts and
`get_posts({'score': N})` returns exactly the stored posts whose score
field equals `N`, for the relational and document-file variants on every
stored state, and for the tabular-file variant on tables whose rows carry
the post schema (so a `score` column exists); when no stored record has a
score field the tabular variant ignores the filter entry and returns
every row. -/
theorem c3_amended_get_filters (rows stored csvRows : List Record) (n : Int)
    (hsql : ∀ r ∈ rows, recKeys r = postColumns)
    (hcsv : ∀ r ∈ csvRows, recKeys r = postColumns)
    (hcne : csvRows ≠ []) :
    sqliteGetPosts rows [] = rows ∧
    sqliteGetPosts rows [("score", Value.vInt n)] =
      rows.filter (keyIs "score" (Value.vInt n)) ∧
    jsonGetPosts stored [] = stored ∧
    jsonGetPosts stored [("score", Value.vInt n)] =
      stored.filter (keyIs "score" (Value.vInt n)) ∧
    csvGetPosts (some csvRows) [] = csvRows ∧
    csvGetPosts (some csvRows) [("score", Value.vInt n)] =
      csvRows.filter (keyIs "score" (Value.vInt n)) := by
  have hccols : colsOf csvRows = postColumns :=
    colsOf_uniform csvRows postColumns hcsv hcne (by decide)
  have halignsql : ∀ l : List Record, (∀ r ∈ l, r ∈ rows) →
      l.map (alignToCols postColumns) = l := by
    intro l hsub
    exact (List.map_congr_left (fun r hr => alignToCols_eq_self postColumns r
      (hsql r (hsub r hr)) (by decide))).trans (List.map_id' l)
  have haligncsv : ∀ l : List Record, (∀ r ∈ l, r ∈ csvRows) →
      l.map (alignToCols postColumns) = l := by
    intro l hsub
    exact (List.map_congr_left (fun r hr => alignToCols_eq_self postColumns r
      (hcsv r (hsub r hr)) (by decide))).trans (List.map_id' l)
  refine ⟨sqliteGetPosts_nofilter rows hsql, ?_, ?_, ?_, ?_, ?_⟩
  · rw [sqliteGetPosts_single_filter rows "score" (Value.vInt n) (by decide)
      (by simp)]
    exact halignsql _ (fun r hr => (List.mem_filter.mp hr).1)
  · unfold jsonGetPosts
    rw [if_pos rfl]
  · unfold jsonGetPosts
    rw [if_neg (by simp),
      List.filter_congr (fun r _ => filterMatches_single "score" (Value.vInt n)
        (by simp) r)]
  · rw [csvGetPosts_nofilter, hccols]
    exact haligncsv csvRows (fun r hr => hr)
  · rw [csvGetPosts_single_filter csvRows "score" (Value.vInt n)
      (by rw [hccols]; decide) (by simp), hccols]
    exact haligncsv _ (fun r hr => (List.mem_filter.mp hr).1)

theorem c3_amended_get_filters_witness :
    sqliteGetPosts [samplePost] [] = [samplePost] ∧
    sqliteGetPosts [samplePost] [("score", Value.vInt 5)] =
      [samplePost].filter (keyIs "score" (Value.vInt 5)) ∧
    jsonGetPosts [serializeRecord samplePost] [] = [serializeRecord samplePost] ∧
    jsonGetPosts [serializeRecord samplePost] [("score", Value.vInt 5)] =
      [serializeRecord samplePost].filter (keyIs "score" (Value.vInt 5)) ∧
    csvGetPosts (some [csvSerializeRecord samplePost]) [] =
      [csvSerializeRecord samplePost] ∧
    csvGetPosts (some [csvSerializeRecord samplePost])
      [("score", Value.vInt 5)] =
      [csvSerializeRecord samplePost].filter (keyIs "score" (Value.vInt 5)) :=
  c3_amended_get_filters [samplePost] [serializeRecord samplePost]
    [csvSerializeRecord samplePost] 5 (by decide) (by decide) (by decide)

/-! ## Claim C8 -/

theorem mem_csv_filter_fold (cols : List String) :
    ∀ (filters : List (String × Value)) (df : List Record) (x : Record),
      x ∈ filters.foldl (fun df kv => if kv.1 ∈ cols then
        df.filter (fun r => csvEq ((recGet? r kv.1).getD Value.vNone) kv.2)
        else df) df →
      x ∈ df := by
  intro filters
  induction filters with
  | nil => intro df x h; exact h
  | cons kv0 rest ih =>
    intro df x h
    rw [List.foldl_cons] at h
    have h' := ih _ x h
    by_cases hc : kv0.1 ∈ cols
    · rw [if_pos hc] at h'
      exact (List.mem_filter.mp h').1
    · rwa [if_neg hc] at h'

theorem csv_filter_fold_pred (cols : List String) (k : String) (v : Value)
    (hk : k ∈ cols) :
    ∀ (filters : List (String × Value)) (df : List Record) (x : Record),
      (k, v) ∈ filters →
      x ∈ filters.foldl (fun df kv => if kv.1 ∈ cols then
        df.filter (fun r => csvEq ((recGet? r kv.1).getD Value.vNone) kv.2)
        else df) df →
      csvEq ((recGet? x k).getD Value.vNone) v = true := by
  intro filters
  induction filters with
  | nil => intro df x hm; simp at hm
  | cons kv0 rest ih =>
    intro df x hm h
    rw [List.foldl_cons] at h
    rcases List.mem_cons.mp hm with he | hm'
    · cases he.symm
      have hx := mem_csv_filter_fold cols rest _ x h
      rw [if_pos hk] at hx
      exact (List.mem_filter.mp hx).2
    · exact ih _ x hm' h

/-- C8 as stated is false on both file backends: the JSON variant matches
a record lacking the filtered field when the target value is `None`
(`record.get(key)` yields `None` and `None == None` holds), and the CSV
variant ignores a filter entry whose field matches no stored column,
returning the field-less record for an arbitrary target value. -/
theorem c8_missing_field_counterexample :
    recGet? [("id", Value.vStr "a")] "flair" = none ∧
    jsonGetPosts [[("id", Value.vStr "a")]] [("flair", Value.vNone)] =
      [[("id", Value.vStr "a")]] ∧
    recGet? [("id", Value.vStr "a")] "note" = none ∧
    csvGetPosts (some [[("id", Value.vStr "a")]]) [("note", Value.vInt 7)] =
      [[("id", Value.vStr "a")]] := by decide

/-- C8 amended: a record lacking a field referenced by the filter map is
excluded — by the JSON variant for every non-`None` target value (a
`None` target matches such records), and by the CSV variant whenever the
field is one of the stored table's columns (an entry naming no column is
ignored): every record the CSV variant returns then carries a non-empty
cell in that field. -/
theorem c8_amended_missing_field_excluded (k : String) (v : Value)
    (hv : v ≠ Value.vNone) :
    (∀ (stored : List Record) (filters : List (String × Value)) (r : Record),
      (k, v) ∈ filters → recGet? r k = none →
      r ∉ jsonGetPosts stored filters) ∧
    (∀ (rows : List Record) (filters : List (String × Value)),
      (k, v) ∈ filters → k ∈ colsOf rows →
      ∀ out_r ∈ csvGetPosts (some rows) filters,
        ∃ c, recGet? out_r k = some c ∧ c ≠ Value.vNone) := by
  constructor
  · intro stored filters r hm hnone hmem
    have hfne : filters ≠ [] := by
      intro h0
      rw [h0] at hm
      simp at hm
    unfold jsonGetPosts at hmem
    rw [if_neg hfne] at hmem
    have hall := (List.mem_filter.mp hmem).2
    unfold filterMatches at hall
    have := List.all_eq_true.mp hall (k, v) hm
    rw [hnone] at this
    simp at this
    exact hv this.symm
  · intro rows filters hm hk out_r hout
    have hfne : filters ≠ [] := by
      intro h0
      rw [h0] at hm
      simp at hm
    simp only [csvGetPosts] at hout
    rw [if_neg hfne] at hout
    obtain ⟨x, hx, he⟩ := List.mem_map.mp hout
    have hpred := csv_filter_fold_pred (colsOf rows) k v hk filters rows x hm hx
    refine ⟨(recGet? x k).getD Value.vNone, ?_, ?_⟩
    · rw [← he]
      exact recGet?_alignToCols_mem _ x k hk
    · intro hcell
      rw [hcell] at hpred
      simp [csvEq] at hpred

theorem c8_amended_missing_field_excluded_witness :
    ((Value.vStr "hot" : Value) ≠ Value.vNone) ∧
    ([("id", Value.vStr "a")] ∉
      jsonGetPosts [[("id", Value.vStr "a")]] [("flair", Value.vStr "hot")]) ∧
    (∀ out_r ∈ csvGetPosts (some [samplePost]) [("flair", Value.vStr "hot")],
      ∃ c, recGet? out_r "flair" = some c ∧ c ≠ Value.vNone) :=
  ⟨by decide,
   (c8_amended_missing_field_excluded "flair" (Value.vStr "hot") (by decide)).1
     [[("id", Value.vStr "a")]] [("flair", Value.vStr "hot")]
     [("id", Value.vStr "a")] (by decide) (by decide),
   (c8_amended_missing_field_excluded "flair" (Value.vStr "hot") (by decide)).2
     [samplePost] [("flair", Value.vStr "hot")] (by decide) (by decide)⟩

end PersonalScraper
